import Mathlib

/-!
# Verification of the echo-ai probabilistic batch-execution and analysis engine

Shallow embedding of `backend/app/builders/runner.py`, `providers.py` and
`analysis.py`. Texts are modelled as `String` / `List Char` (character
positions coincide with Python string indices), floats as `ℚ`, and the regex
fragment actually used by the source (escaped literals with optional
word-boundary assertions, case-insensitive) is embedded directly.
-/

namespace EchoAI

/-! ## Text matching core

`_compute_visibility` compiles `prefix + re.escape(brand) + suffix` with
`re.IGNORECASE`, where each of the two assertions is the regex word boundary,
added only when the brand's edge character on that side is a word character.
`_compute_first_mention_rates` compiles `r"\b{}\b".format(re.escape(brand))`.
Because the brand is escaped, both patterns are case-insensitive literal
searches plus zero-width boundary assertions, embedded below for the ASCII
fragment (word character = letter, digit or underscore). -/

/-- ASCII model of the regex word character class `\w`. -/
def isWordChar (c : Char) : Bool :=
  c.isAlpha || c.isDigit || c == '_'

/-- Lower-case a character sequence; models `re.IGNORECASE` comparison and
`str.lower()` for the ASCII fragment. -/
def lowerList (s : List Char) : List Char :=
  s.map Char.toLower

/-- Is the character at position `i` of `t` a word character (`false` past the
end of the text)? -/
def isWordAt (t : List Char) (i : Nat) : Bool :=
  match t.drop i with
  | [] => false
  | c :: _ => isWordChar c

/-- The regex word-boundary assertion `\b` at position `i` of `t`: it holds
when exactly one of the two adjacent positions carries a word character. -/
def wordBoundaryAt (t : List Char) (i : Nat) : Bool :=
  (if i = 0 then false else isWordAt t (i - 1)) != isWordAt t i

/-- Case-insensitive literal match of `b` at position `i` of `t`
(`re.escape` makes the brand a literal pattern). -/
def litMatchAt (t b : List Char) (i : Nat) : Bool :=
  lowerList ((t.drop i).take b.length) == lowerList b

/-- Does the brand begin with a word character
(`re.match(r"^\w", brand)` in `_compute_visibility`)? -/
def startsWordChar (b : List Char) : Bool :=
  match b with
  | [] => false
  | c :: _ => isWordChar c

/-- Does the brand end with a word character
(`re.match(r".*\w$", brand)` for newline-free brands)? -/
def endsWordChar (b : List Char) : Bool :=
  match b.getLast? with
  | none => false
  | some c => isWordChar c

/-- The `_compute_visibility` pattern: literal match with a boundary assertion
only on the sides whose edge character is a word character. -/
def smartMatchAt (t b : List Char) (i : Nat) : Bool :=
  litMatchAt t b i
    && (!startsWordChar b || wordBoundaryAt t i)
    && (!endsWordChar b || wordBoundaryAt t (i + b.length))

/-- The `_compute_first_mention_rates` pattern `\b...\b`: literal match with
boundary assertions on both sides unconditionally. -/
def wbMatchAt (t b : List Char) (i : Nat) : Bool :=
  litMatchAt t b i && wordBoundaryAt t i && wordBoundaryAt t (i + b.length)

/-- First position at or after `i` satisfying `m`, scanning at most `fuel`
positions (fuel-based rendering of the regex engine's left-to-right scan). -/
def findFrom (m : Nat → Bool) : Nat → Nat → Option Nat
  | _, 0 => none
  | i, fuel + 1 => if m i then some i else findFrom m (i + 1) fuel

/-- Start offset of the first match (`pattern.search` / first of
`pattern.finditer`); positions `0..len` are the only candidates. -/
def firstMatchPos (m : Nat → Bool) (len : Nat) : Option Nat :=
  findFrom m 0 (len + 1)

/-- Number of non-overlapping matches found by `pattern.finditer`: scan left to
right, and after a match skip the matched text (`step` characters, at least
one). -/
def countFrom (m : Nat → Bool) (step : Nat) : Nat → Nat → Nat
  | _, 0 => 0
  | i, fuel + 1 =>
    if m i then 1 + countFrom m step (i + max step 1) fuel
    else countFrom m step (i + 1) fuel

/-- Match count of the `finditer` loop over a text of length `len`. -/
def countMatches (m : Nat → Bool) (step len : Nat) : Nat :=
  countFrom m step 0 (len + 1)

/-- First-match offset of the smart-boundary visibility pattern in `t`. -/
def smartFirst (t b : String) : Option Nat :=
  firstMatchPos (smartMatchAt t.toList b.toList) t.toList.length

/-- Match count of the smart-boundary visibility pattern in `t`. -/
def smartCount (t b : String) : Nat :=
  countMatches (smartMatchAt t.toList b.toList) b.toList.length t.toList.length

/-- First-match offset of the two-sided word-boundary pattern in `t`. -/
def wbFirst (t b : String) : Option Nat :=
  firstMatchPos (wbMatchAt t.toList b.toList) t.toList.length

/-! ## Visibility metrics (`AnalysisBuilder._compute_visibility`) -/

/-- Visibility analysis results for a single brand (dataclass
`VisibilityMetrics`). -/
structure VisibilityMetrics where
  brand : String
  mention_count : Nat
  visibility_rate : ℚ
  avg_mentions_per_response : ℚ
  first_mention_rate : ℚ
  avg_position : Option ℚ
deriving DecidableEq, Repr

/-- `AnalysisBuilder._compute_visibility`: per-brand mention statistics over
the successful response texts.  The source's single accumulation loop is
rendered as three list traversals; a response contributes a first-mention
position exactly when its match list is non-empty. -/
def computeVisibility (responses : List String) (brand : String) : VisibilityMetrics :=
  let total_mentions := (responses.map (fun r => smartCount r brand)).sum
  let responses_with_mention := responses.countP (fun r => 0 < smartCount r brand)
  let positions := responses.filterMap (fun r => smartFirst r brand)
  let total_responses := responses.length
  let visibility_rate : ℚ :=
    if 0 < total_responses then (responses_with_mention : ℚ) / total_responses else 0
  let avg_mentions : ℚ :=
    if 0 < responses_with_mention then (total_mentions : ℚ) / responses_with_mention else 0
  let avg_position : Option ℚ :=
    if positions = [] then none
    else some ((positions.map (fun p => (p : ℚ))).sum / positions.length)
  { brand := brand
    mention_count := total_mentions
    visibility_rate := visibility_rate
    avg_mentions_per_response := avg_mentions
    first_mention_rate := 0
    avg_position := avg_position }

/-! ## Provider adapters (`backend/app/builders/providers.py`)

The provider exception taxonomy.  `ProviderServerError` subclasses
`ProviderError` in the source; the `server` constructor below is therefore
also handled by every `except ProviderError` clause of the runner.
`unexpected` stands for any exception outside the module's taxonomy (caught
only by the runner's `except Exception`). -/
inductive PErr where
  | rateLimit (msg : String)
  | auth (msg : String)
  | server (msg : String)
  | generic (msg : String)
  | unexpected (msg : String)
deriving DecidableEq, Repr

/-- Which exceptions `BaseLLMProvider.generate` retries:
`retry_if_exception_type((RateLimitError, ProviderServerError))`. -/
def retryableByProvider : PErr → Bool
  | .rateLimit _ => true
  | .server _ => true
  | _ => false

/-- Which exceptions `RunnerBuilder._execute_with_retry` retries:
`retry_if_exception_type(RateLimitError)`. -/
def retryableByRunner : PErr → Bool
  | .rateLimit _ => true
  | _ => false

/-- Modelled from the spec: the normalized `ResponsePayload`
(`backend/app/schemas/llm.py` is not under `src/`): text content plus the
optional structured citation list of web-grounded providers.  Identifier,
token-usage, timestamp and latency attributes play no part in the analysed
claims and are omitted. -/
structure SearchResult where
  title : String
  url : String
  date : Option String
deriving DecidableEq, Repr

/-- Modelled from the spec: normalized provider output (see `SearchResult`). -/
structure Resp where
  content : String
  search_results : Option (List SearchResult)
deriving DecidableEq, Repr

/-- One call-with-retry layer, shared by tenacity's two uses
(`stop_after_attempt`, `reraise=True`): `call` consumes an index into the
underlying attempt oracle and returns the next index; `retriesLeft` is the
attempt budget beyond the current attempt (4 for `stop_after_attempt(5)`).
A retryable failure with budget left is retried; anything else — success, a
non-retryable exception, or an exhausted budget — is surfaced as is. -/
def retryCall (p : PErr → Bool) (call : Nat → Except PErr α × Nat) :
    Nat → Nat → Except PErr α × Nat
  | 0, i => call i
  | n + 1, i =>
    match call i with
    | (.error e, i') => if p e then retryCall p call n i' else (.error e, i')
    | (.ok a, i') => (.ok a, i')

/-- tenacity `wait_exponential(multiplier, min, max)`: the sleep before the
retry following attempt number `attempt` is `multiplier * 2 ^ (attempt - 1)`
clamped into `[min, max]` (modelled from the library the source configures). -/
def waitExponential (multiplier lo hi : ℚ) (attempt : Nat) : ℚ :=
  max (max 0 lo) (min (multiplier * 2 ^ (attempt - 1)) hi)

/-- The sleeps tenacity performs for a run of `attempts` attempts. -/
def tenacityDelays (multiplier lo hi : ℚ) (attempts : Nat) : List ℚ :=
  (List.range (attempts - 1)).map (fun k => waitExponential multiplier lo hi (k + 1))

/-- `BaseLLMProvider.generate`: one `_make_request` + `_parse_response` cycle
per attempt (the oracle `mk`), retried up to 5 attempts for `RateLimitError`
and `ProviderServerError` with exponential backoff, re-raising the last
exception.  Returns the surfaced result and the next oracle index (so the
number of attempts taken is the index delta). -/
def generate (mk : Nat → Except PErr Resp) (i : Nat) : Except PErr Resp × Nat :=
  retryCall retryableByProvider (fun j => (mk j, j + 1)) 4 i

/-- `RunnerBuilder._execute_with_retry`: the runner-level tenacity layer,
retrying only `RateLimitError` up to 5 attempts around `provider.generate`. -/
def executeWithRetry (mk : Nat → Except PErr Resp) (i : Nat) : Except PErr Resp × Nat :=
  retryCall retryableByRunner (generate mk) 4 i

/-! ## Runner (`backend/app/builders/runner.py`) -/

/-- `IterationStatus` (modelled from the spec: `backend/app/schemas/runner.py`
is not under `src/`; the five status tags are those the runner assigns). -/
inductive IterationStatus where
  | success
  | failed
  | rateLimited
  | authError
  | timeout
deriving DecidableEq, Repr

/-- Modelled from the spec: `IterationResult` — ordinal index, status tag,
response payload (present only on success) and error message (present only on
non-success).  Latency and retry-count attributes are wall-clock data outside
the shallow embedding. -/
structure IterationResult where
  iteration_index : Nat
  status : IterationStatus
  response : Option Resp
  error_message : Option String
deriving DecidableEq, Repr

/-- The provider enumeration (`LLMProvider`). -/
inductive Provider where
  | openai
  | anthropic
  | perplexity
deriving DecidableEq, Repr

/-- The `.value` string of the provider enumeration. -/
def Provider.value : Provider → String
  | .openai => "openai"
  | .anthropic => "anthropic"
  | .perplexity => "perplexity"

/-- The `model` argument `get_provider` passes to each adapter when the caller
supplies none. -/
def factoryDefaultModel : Provider → String
  | .perplexity => "sonar-deep-research"
  | .openai => "gpt-5.2"
  | .anthropic => "claude-sonnet-4-5-20250929"

/-- Modelled from the spec: `BatchConfig` — iteration count, concurrency
limit and sampling parameters. -/
structure BatchConfig where
  iterations : Nat := 10
  max_concurrency : Nat := 10
  temperature : ℚ := 7/10
  max_tokens : Option Nat := none
  model : Option String := none
  system_prompt : Option String := none
deriving DecidableEq, Repr

/-- The application settings consulted by `run_batch` (`max_iterations`). -/
structure Settings where
  max_iterations : Nat
deriving DecidableEq, Repr

/-- Modelled from the spec: `BatchResult` — identity and configuration of the
run plus the ordered collection of iteration outcomes.  Timestamps and
durations are wall-clock data outside the shallow embedding; the derived
counts are functions of the outcome collection (spec: counts are derivable
from the outcome collection and must stay consistent with it). -/
structure BatchResult where
  batch_id : String
  provider : Provider
  model : String
  prompt : String
  system_prompt : Option String
  config : BatchConfig
  iterations : List IterationResult
deriving DecidableEq, Repr

/-- Modelled from the spec: derived count of successful iterations. -/
def BatchResult.successful_iterations (b : BatchResult) : Nat :=
  b.iterations.countP (fun it => it.status == IterationStatus.success)

/-- Modelled from the spec: derived count of non-successful iterations. -/
def BatchResult.failed_iterations (b : BatchResult) : Nat :=
  b.iterations.countP (fun it => it.status != IterationStatus.success)

/-- Modelled from the spec: the successful response texts consumed by the
Analysis Engine (status success ⇔ payload present). -/
def BatchResult.raw_responses (b : BatchResult) : List String :=
  b.iterations.filterMap (fun it =>
    match it.status, it.response with
    | .success, some r => some r.content
    | _, _ => none)

/-- Case-insensitive containment used by the runner's timeout check
(`"timeout" in str(e).lower()`). -/
def containsTimeout (msg : String) : Bool :=
  (firstMatchPos (litMatchAt msg.toList "timeout".toList) msg.toList.length).isSome

/-- `RunnerBuilder._run_single_iteration`: run the retried invocation and
convert every exception to a typed failure outcome.  The `except` clauses in
source order: `RateLimitError`, `ProviderAuthError`, `ProviderError` (with the
timeout-message check; this also catches `ProviderServerError`), `RetryError`
(dead code — every tenacity layer is configured with `reraise=True`), and the
catch-all `except Exception`. -/
def runSingleIteration (mk : Nat → Except PErr Resp) (idx : Nat) : IterationResult :=
  match (executeWithRetry mk 0).1 with
  | .ok resp =>
    { iteration_index := idx, status := .success, response := some resp, error_message := none }
  | .error (.rateLimit m) =>
    { iteration_index := idx, status := .rateLimited, response := none, error_message := some m }
  | .error (.auth m) =>
    { iteration_index := idx, status := .authError, response := none, error_message := some m }
  | .error (.server m) =>
    { iteration_index := idx, status := if containsTimeout m then .timeout else .failed,
      response := none, error_message := some m }
  | .error (.generic m) =>
    { iteration_index := idx, status := if containsTimeout m then .timeout else .failed,
      response := none, error_message := some m }
  | .error (.unexpected m) =>
    { iteration_index := idx, status := .failed, response := none,
      error_message := some ("Unexpected error: " ++ m) }

/-- One element of the `asyncio.gather(*tasks, return_exceptions=True)` result
list: either a task's `IterationResult` or an exception object that escaped
the task. -/
inductive GatherItem where
  | res (r : IterationResult)
  | exn (msg : String)
deriving DecidableEq, Repr

/-- The result-processing loop of `run_batch`: exceptions that escaped a task
are converted in index order to failed outcomes.  (The source's final
unexpected-result-type branch is unrepresentable in the typed model.) -/
def processResults (items : List GatherItem) : List IterationResult :=
  items.enum.map (fun p =>
    match p.2 with
    | .res r => r
    | .exn m =>
      { iteration_index := p.1, status := .failed, response := none, error_message := some m })

/-- The config-rebuilding prologue of `RunnerBuilder.run_batch`: an explicit
`iterations` argument overrides the supplied configuration, defaults apply
when none is given. -/
def resolveConfig (iterationsArg : Option Nat) (config : Option BatchConfig) : BatchConfig :=
  let cfg0 := config.getD {}
  match iterationsArg with
  | some n => { cfg0 with iterations := n }
  | none => cfg0

/-- `RunnerBuilder.run_batch`.  The provider's behaviour is abstracted by the
oracle `mk` giving, per iteration index and per underlying request attempt,
the outcome of `_make_request` + `_parse_response`.  `asyncio.gather`
preserves task argument order, so the concurrent fan-out/fan-in is rendered as
a map over the iteration indices; every task returns normally (its exceptions
are all caught), so each gather slot holds a task result. -/
def run_batch (settings : Settings) (mk : Nat → Nat → Except PErr Resp)
    (prompt : String) (provider : Provider)
    (iterationsArg : Option Nat) (config : Option BatchConfig) :
    Except String BatchResult :=
  let cfg := resolveConfig iterationsArg config
  if settings.max_iterations < cfg.iterations then
    .error ("Iterations (" ++ toString cfg.iterations ++ ") exceeds maximum allowed ("
      ++ toString settings.max_iterations ++ ")")
  else
    let tasks := (List.range cfg.iterations).map (fun i => runSingleIteration (mk i) i)
    let results := tasks.map GatherItem.res
    .ok
      { batch_id := "batch"
        provider := provider
        model := (cfg.model).getD (factoryDefaultModel provider)
        prompt := prompt
        system_prompt := cfg.system_prompt
        config := cfg
        iterations := processResults results }

/-! ## First-mention attribution (`AnalysisBuilder._compute_first_mention_rates`) -/

/-- One step of the source's first-appearing-brand scan: a brand displaces the
current best exactly when its first match offset is strictly lower
(`match.start() < first_pos`, with `first_pos` starting at infinity). -/
def stepBrand (r : String) (acc : Option (String × Nat)) (b : String) : Option (String × Nat) :=
  match wbFirst r b with
  | none => acc
  | some p =>
    match acc with
    | none => some (b, p)
    | some (b0, p0) => if p < p0 then some (b, p) else some (b0, p0)

/-- The brand credited with the first mention in response `r` (the value of
`first_brand` after the per-brand loop). -/
def firstWinner (r : String) (brands : List String) : Option String :=
  (brands.foldl (stepBrand r) none).map Prod.fst

/-- Ordered-dictionary lookup (Python `dict` with string keys, insertion
ordered). -/
def lookupA (l : List (String × α)) (k : String) : Option α :=
  (l.find? (fun p => p.1 == k)).map Prod.snd

/-- Ordered-dictionary write: replacement keeps the key's position, a fresh
key is appended. -/
def updateA (l : List (String × α)) (k : String) (v : α) : List (String × α) :=
  if l.any (fun p => p.1 == k) then l.map (fun p => if p.1 == k then (k, v) else p)
  else l ++ [(k, v)]

/-- The `first_mention_counts` dictionary: initialized to zero for every
brand, then incremented with each response's winning brand.  (The `none`
lookup branch is unreachable: a winner always comes from `brands`.) -/
def firstMentionCounts (responses : List String) (brands : List String) :
    List (String × Nat) :=
  responses.foldl
    (fun counts r =>
      match firstWinner r brands with
      | some b =>
        match lookupA counts b with
        | some c => updateA counts b (c + 1)
        | none => counts
      | none => counts)
    (brands.map (fun b => (b, 0)))

/-- The corrected metric record of the patch loop: the old record with
`first_mention_rate` set to `count / total_responses` (0 when the batch is
empty). -/
def patchVm (total : Nat) (c : Nat) (vm : VisibilityMetrics) : VisibilityMetrics :=
  { vm with first_mention_rate := if 0 < total then (c : ℚ) / (total : ℚ) else 0 }

/-- One `counts.items()` entry of the patch loop of
`_compute_first_mention_rates`: rebuild the brand's record from
`brand_to_metrics` with the correct rate, write it back into the dictionary
and into every name-matching slot of the metrics list.  (A brand absent from
the dictionary is skipped by the `if brand in brand_to_metrics` guard.) -/
def patchStep (total : Nat)
    (st : List (String × VisibilityMetrics) × List VisibilityMetrics)
    (bc : String × Nat) :
    List (String × VisibilityMetrics) × List VisibilityMetrics :=
  match lookupA st.1 bc.1 with
  | none => st
  | some vm0 =>
    let newVm := patchVm total bc.2 vm0
    (updateA st.1 bc.1 newVm,
     st.2.map (fun vm => if vm.brand == bc.1 then newVm else vm))

/-- `AnalysisBuilder._compute_first_mention_rates`: build the
`brand_to_metrics` dictionary, then for each counted brand rebuild its metric
record with the correct rate and patch it into both the dictionary and (every
name-matching slot of) the metrics list; the mutated list is returned. -/
def computeFirstMentionRates (responses : List String)
    (visibility_metrics : List VisibilityMetrics) (target_brands : List String) :
    List VisibilityMetrics :=
  let brand_to_metrics := visibility_metrics.foldl (fun m vm => updateA m vm.brand vm) []
  let counts := firstMentionCounts responses target_brands
  (counts.foldl (patchStep responses.length) (brand_to_metrics, visibility_metrics)).2

/-! ## Share of voice (`AnalysisBuilder._compute_share_of_voice`) -/

/-- Share of Voice analysis for one brand (dataclass `ShareOfVoice`). -/
structure ShareOfVoice where
  brand : String
  share : ℚ
  rank : Nat
deriving DecidableEq, Repr

/-- The comparison realizing `shares.sort(key=lambda x: x[2], reverse=True)`:
Python's `list.sort` is stable, and with `reverse=True` an element comes
before another exactly when the later one's key is at most the earlier
one's.  The stable `List.insertionSort` with this comes-before relation is
that sort. -/
def shareSortRel (a b : String × ℚ × Nat) : Prop := b.2.2 ≤ a.2.2

instance : DecidableRel shareSortRel := fun a b => Nat.decLe _ _

/-- `AnalysisBuilder._compute_share_of_voice`: shares are mention counts over
the total; entries are ranked by descending raw mention count (stable sort,
see `shareSortRel`). -/
def computeShareOfVoice (visibility_metrics : List VisibilityMetrics) :
    List ShareOfVoice :=
  let total_mentions : Nat := (visibility_metrics.map (fun v => v.mention_count)).sum
  if total_mentions = 0 then
    visibility_metrics.enum.map (fun p => { brand := p.2.brand, share := 0, rank := p.1 + 1 })
  else
    let shares : List (String × ℚ × Nat) :=
      visibility_metrics.map
        (fun v => (v.brand, (v.mention_count : ℚ) / (total_mentions : ℚ), v.mention_count))
    let sorted := List.insertionSort shareSortRel shares
    sorted.enum.map (fun p => { brand := p.2.1, share := p.2.2.1, rank := p.1 + 1 })

/-! ## Consistency (`AnalysisBuilder._compute_consistency`) -/

/-- Response consistency statistics (dataclass `ConsistencyMetrics`). -/
structure ConsistencyMetrics where
  avg_similarity : ℚ
  min_similarity : ℚ
  max_similarity : ℚ
  std_deviation : ℚ
  consistency_score : ℚ
deriving DecidableEq, Repr

/-- Oracles for the external operations the analysis calls: `rapidfuzz
fuzz.ratio` (pairwise similarity), the floating-point square root
(`variance ** 0.5` — no counterpart in `ℚ`), and `random.sample` over the
pair list.  No analysed claim depends on their values. -/
structure AnalysisOracles where
  sim : String → String → ℚ
  sqrtQ : ℚ → ℚ
  samplePairs : List (Nat × Nat) → Nat → List (Nat × Nat)

/-- The unordered index pairs `(i, j)`, `i < j < n`, in the source's
generation order. -/
def allPairs (n : Nat) : List (Nat × Nat) :=
  (List.range n).flatMap (fun i => ((List.range n).drop (i + 1)).map (fun j => (i, j)))

/-- `AnalysisBuilder._compute_consistency`: maximal metrics below two
responses; otherwise pairwise similarities (all pairs up to the 1000-pair
ceiling, a random sample of 1000 beyond it), their mean, min, max,
Bessel-corrected sample standard deviation, and the mean scaled to `[0,1]`. -/
def computeConsistency (o : AnalysisOracles) (responses : List String) :
    ConsistencyMetrics :=
  if responses.length < 2 then
    { avg_similarity := 100, min_similarity := 100, max_similarity := 100,
      std_deviation := 0, consistency_score := 1 }
  else
    let max_comparisons := 1000
    let total_pairs := responses.length * (responses.length - 1) / 2
    let pairs := allPairs responses.length
    let chosen :=
      if total_pairs ≤ max_comparisons then pairs else o.samplePairs pairs max_comparisons
    let similarities :=
      chosen.map (fun p => o.sim (responses.getD p.1 "") (responses.getD p.2 ""))
    let avg := similarities.sum / similarities.length
    let minS := match similarities with | [] => 0 | s :: rest => rest.foldl min s
    let maxS := match similarities with | [] => 0 | s :: rest => rest.foldl max s
    let std :=
      if 1 < similarities.length then
        o.sqrtQ (((similarities.map (fun s => (s - avg) ^ 2)).sum) /
          ((similarities.length - 1 : Nat) : ℚ))
      else 0
    { avg_similarity := avg, min_similarity := minS, max_similarity := maxS,
      std_deviation := std, consistency_score := avg / 100 }

/-! ## Hallucination (`AnalysisBuilder._compute_hallucination`) -/

/-- Hallucination detection results (dataclass `HallucinationMetrics`). -/
structure HallucinationMetrics where
  total_citations : Nat
  valid_citations : Nat
  invalid_citations : Nat
  hallucination_rate : ℚ
  flagged_urls : List String
deriving DecidableEq, Repr

/-- Exact (case-sensitive) literal match, for substring splitting. -/
def exactMatchAt (t b : List Char) (i : Nat) : Bool :=
  (t.drop i).take b.length == b

/-- Offset of the first occurrence of `b` in `t`. -/
def findSub (t b : List Char) : Option Nat :=
  findFrom (exactMatchAt t b) 0 (t.length + 1)

/-- `AnalysisBuilder._extract_domain`: lower-case the URL, drop everything up
to and including the first `"://"`, keep everything before the first `"/"`. -/
def extractDomain (url : String) : String :=
  let u := lowerList url.toList
  let u :=
    match findSub u "://".toList with
    | some i => u.drop (i + 3)
    | none => u
  ⟨u.takeWhile (fun c => c ≠ '/')⟩

/-- Does `s` end with `p` (`str.endswith`)? -/
def endsWithL (s p : List Char) : Bool :=
  p.length ≤ s.length && (s.drop (s.length - p.length) == p)

/-- Strip leading and trailing whitespace (`str.strip()`). -/
def trimL (s : List Char) : List Char :=
  ((s.dropWhile Char.isWhitespace).reverse.dropWhile Char.isWhitespace).reverse

/-- Whitelist normalization: `d.lower().strip()`. -/
def normalizeDomain (d : String) : String :=
  ⟨trimL (lowerList d.toList)⟩

/-- The whitelist check of `_compute_hallucination`: the extracted domain
equals a normalized whitelisted domain, or is a strict subdomain of one
(ends with `"."` followed by it). -/
def isValidCitation (normalized_whitelist : List String) (url : String) : Bool :=
  let domain := (extractDomain url).toList
  normalized_whitelist.any (fun w => domain == w.toList || endsWithL domain ('.' :: w.toList))

/-- The citation URLs one iteration contributes: successful iterations with a
payload whose citation list is non-empty (`response.search_results` truthy).
The source's fallback that digs into the raw provider dictionary is outside
the normalized payload model. -/
def citationUrls (it : IterationResult) : List String :=
  match it.response with
  | none => []
  | some resp =>
    match resp.search_results with
    | some (sr :: srs) => (sr :: srs).map (fun s => s.url)
    | _ => []

/-- The per-URL counting loop of `_compute_hallucination`, over the already
collected citation URLs and the normalized whitelist. -/
def hallucinationOfUrls (wl : List String) (urls : List String) : HallucinationMetrics :=
  let total_citations := urls.length
  let valid_citations := urls.countP (isValidCitation wl)
  let flagged := urls.filter (fun u => !isValidCitation wl u)
  let invalid := total_citations - valid_citations
  { total_citations := total_citations
    valid_citations := valid_citations
    invalid_citations := invalid
    hallucination_rate :=
      if 0 < total_citations then (invalid : ℚ) / total_citations else 0
    flagged_urls := flagged.take 20 }

/-- `AnalysisBuilder._compute_hallucination`: collect the (non-empty) citation
URLs of successful iterations, validate each against the normalized
whitelist, and keep at most 20 flagged URLs. -/
def computeHallucination (iterations : List IterationResult)
    (domain_whitelist : List String) : HallucinationMetrics :=
  hallucinationOfUrls (domain_whitelist.map normalizeDomain)
    (((iterations.filter (fun it => it.status == IterationStatus.success)).flatMap
      citationUrls).filter (fun u => u ≠ ""))

/-! ## Result assembly (`analyze_batch`, `_build_raw_metrics`, `_empty_result`) -/

/-- JSON-like values of the `raw_metrics` storage dictionary. -/
inductive RawVal where
  | nat (n : Nat)
  | rat (q : ℚ)
  | str (s : String)
  | optRat (q : Option ℚ)
  | arr (l : List RawVal)
  | obj (l : List (String × RawVal))
deriving Repr

/-- Complete analysis results for a batch run (dataclass `AnalysisResult`). -/
structure AnalysisResult where
  batch_id : String
  provider : String
  model : String
  total_responses : Nat
  target_visibility : Option VisibilityMetrics
  competitor_visibility : List VisibilityMetrics
  share_of_voice : List ShareOfVoice
  consistency : ConsistencyMetrics
  hallucination : Option HallucinationMetrics
  raw_metrics : List (String × RawVal)
deriving Repr

/-- `AnalysisBuilder._build_raw_metrics`: the storage dictionary; optional
sections are added only when truthy (a `None` metric or an empty list is
skipped). -/
def buildRawMetrics (target_visibility : Option VisibilityMetrics)
    (competitor_visibility : List VisibilityMetrics)
    (share_of_voice : List ShareOfVoice) (consistency : ConsistencyMetrics)
    (hallucination : Option HallucinationMetrics) (total_responses : Nat) :
    List (String × RawVal) :=
  let metrics : List (String × RawVal) :=
    [("total_responses", .nat total_responses),
     ("consistency", .obj
       [("avg_similarity", .rat consistency.avg_similarity),
        ("min_similarity", .rat consistency.min_similarity),
        ("max_similarity", .rat consistency.max_similarity),
        ("std_deviation", .rat consistency.std_deviation),
        ("consistency_score", .rat consistency.consistency_score)])]
  let metrics :=
    match target_visibility with
    | some tv => metrics ++
        [("target_visibility", .obj
          [("brand", .str tv.brand),
           ("mention_count", .nat tv.mention_count),
           ("visibility_rate", .rat tv.visibility_rate),
           ("avg_mentions_per_response", .rat tv.avg_mentions_per_response),
           ("first_mention_rate", .rat tv.first_mention_rate),
           ("avg_position", .optRat tv.avg_position)])]
    | none => metrics
  let metrics :=
    if competitor_visibility = [] then metrics
    else metrics ++
      [("competitor_visibility", .arr (competitor_visibility.map (fun v => .obj
        [("brand", .str v.brand),
         ("mention_count", .nat v.mention_count),
         ("visibility_rate", .rat v.visibility_rate),
         ("avg_mentions_per_response", .rat v.avg_mentions_per_response)])))]
  let metrics :=
    if share_of_voice = [] then metrics
    else metrics ++
      [("share_of_voice", .arr (share_of_voice.map (fun s => .obj
        [("brand", .str s.brand), ("share", .rat s.share), ("rank", .nat s.rank)])))]
  match hallucination with
  | some h => metrics ++
      [("hallucination", .obj
        [("total_citations", .nat h.total_citations),
         ("valid_citations", .nat h.valid_citations),
         ("invalid_citations", .nat h.invalid_citations),
         ("hallucination_rate", .rat h.hallucination_rate),
         ("flagged_urls", .arr (h.flagged_urls.map (fun u => .str u)))])]
  | none => metrics

/-- `AnalysisBuilder._empty_result`: the sentinel returned when no responses
are available. -/
def emptyResult (batch : BatchResult) : AnalysisResult :=
  { batch_id := batch.batch_id
    provider := batch.provider.value
    model := batch.model
    total_responses := 0
    target_visibility := none
    competitor_visibility := []
    share_of_voice := []
    consistency :=
      { avg_similarity := 0, min_similarity := 0, max_similarity := 0,
        std_deviation := 0, consistency_score := 0 }
    hallucination := none
    raw_metrics := [("total_responses", .nat 0), ("error", .str "No successful responses")] }

/-- The two visibility passes of `analyze_batch`: the per-brand metrics
followed by the in-place first-mention correction of the same list. -/
def allVisibility (responses : List String) (target_brands : List String) :
    List VisibilityMetrics :=
  computeFirstMentionRates responses (target_brands.map (computeVisibility responses))
    target_brands

/-- `AnalysisBuilder.analyze_batch`: the full analysis pipeline.  The
hallucination pass runs only for the Perplexity provider with a truthy
(non-`None`, non-empty) whitelist. -/
def analyzeBatch (o : AnalysisOracles) (batch : BatchResult)
    (target_brands : List String) (domain_whitelist : Option (List String)) :
    AnalysisResult :=
  let responses := batch.raw_responses
  let total_responses := responses.length
  if total_responses = 0 then emptyResult batch
  else
    let all_visibility := allVisibility responses target_brands
    let target_visibility := all_visibility.head?
    let competitor_visibility := all_visibility.tail
    let share_of_voice := computeShareOfVoice all_visibility
    let consistency := computeConsistency o responses
    let hallucination :=
      match domain_whitelist with
      | some (d :: ds) =>
        if batch.provider == Provider.perplexity then
          some (computeHallucination batch.iterations (d :: ds))
        else none
      | _ => none
    { batch_id := batch.batch_id
      provider := batch.provider.value
      model := batch.model
      total_responses := total_responses
      target_visibility := target_visibility
      competitor_visibility := competitor_visibility
      share_of_voice := share_of_voice
      consistency := consistency
      hallucination := hallucination
      raw_metrics := buildRawMetrics target_visibility competitor_visibility
        share_of_voice consistency hallucination total_responses }

/-- Fallback element for positional access in theorem statements. -/
def dummyIteration : IterationResult :=
  { iteration_index := 0, status := .failed, response := none, error_message := none }

/-- Stub analysis oracles for concrete runs whose control flow never reaches
the similarity, square-root or sampling calls. -/
def oraclesStub : AnalysisOracles :=
  { sim := fun _ _ => 0, sqrtQ := fun _ => 0, samplePairs := fun l n => l.take n }

/-- A batch whose only iteration failed: zero successful responses. -/
def failedBatch : BatchResult :=
  { batch_id := "b0", provider := .openai, model := "m", prompt := "p",
    system_prompt := none, config := {},
    iterations := [⟨0, .failed, none, some "auth failed"⟩] }

/-- A batch with exactly one successful response. -/
def oneSuccessBatch : BatchResult :=
  { batch_id := "b1", provider := .openai, model := "m", prompt := "p",
    system_prompt := none, config := {},
    iterations := [⟨0, .success, some ⟨"Acme is great", none⟩, none⟩] }

/-- A successful Perplexity-style iteration citing a whitelisted subdomain and
a non-whitelisted host. -/
def perplexityIter : IterationResult :=
  { iteration_index := 0, status := .success,
    response := some
      { content := "resp",
        search_results := some
          [{ title := "A", url := "https://a.example.com/page", date := none },
           { title := "B", url := "https://b.com", date := none }] },
    error_message := none }

/-- Descending mention-count comparison on index-decorated metrics. -/
def pairCountGE (p q : Nat × VisibilityMetrics) : Prop :=
  q.2.mention_count ≤ p.2.mention_count

instance : DecidableRel pairCountGE := fun _ _ => Nat.decLe _ _

/-- Lexicographic comparison on index-decorated metrics: strictly higher
mention count first, ties resolved by lower original index. -/
def pairLex (p q : Nat × VisibilityMetrics) : Prop :=
  q.2.mention_count < p.2.mention_count ∨
    (p.2.mention_count = q.2.mention_count ∧ p.1 ≤ q.1)

instance : DecidableRel pairLex := fun p q => by unfold pairLex; infer_instance

/-- Descending mention-count comparison on metrics. -/
def vmCountGE (a b : VisibilityMetrics) : Prop := b.mention_count ≤ a.mention_count

instance : DecidableRel vmCountGE := fun _ _ => Nat.decLe _ _

/-- Follows the claim's words (specification-side definition): ranking by
descending raw mention count with ties broken by original list order is the
lexicographic order "higher count first, lower original index first" on the
index-decorated (brand, count) pairs. -/
def specRankRel (p q : Nat × String × Nat) : Prop :=
  q.2.2 < p.2.2 ∨ (p.2.2 = q.2.2 ∧ p.1 ≤ q.1)

instance : DecidableRel specRankRel := fun p q => by unfold specRankRel; infer_instance

/-- Follows the claim's words: the (brand, count) pairs in claimed rank
order — sort the index-decorated list lexicographically, strip the indices. -/
def specRankOrder (pairs : List (String × Nat)) : List (String × Nat) :=
  (List.insertionSort specRankRel pairs.enum).map Prod.snd

/-- Fallback metric record for positional access in theorem statements. -/
def dummyVM : VisibilityMetrics :=
  { brand := "", mention_count := 0, visibility_rate := 0,
    avg_mentions_per_response := 0, first_mention_rate := 0, avg_position := none }

/-- Follows the amended claim's words: response `r` credits brand `b`
(listed between `pre` and `post`) exactly when `b` matches under the plain
two-sided word-boundary pattern at an offset strictly lower than every
earlier-listed brand's first match and at most every later-listed brand's. -/
def firstMentionWinsB (r : String) (pre : List String) (b : String)
    (post : List String) : Bool :=
  match wbFirst r b with
  | none => false
  | some p =>
    pre.all (fun b' =>
      match wbFirst r b' with
      | none => true
      | some q => decide (p < q)) &&
    post.all (fun b' =>
      match wbFirst r b' with
      | none => true
      | some q => decide (p ≤ q))

/-- Follows the original claim's words: the first-mention rate it asserts —
the fraction of responses in which the brand's first match under the
visibility algorithm's smart-boundary rules occurs at a strictly lower
offset than every other analyzed brand's first match. -/
def claimFirstMentionRate (responses : List String) (brands : List String)
    (b : String) : ℚ :=
  ((responses.countP (fun r =>
    match smartFirst r b with
    | none => false
    | some p => brands.all (fun b2 =>
        b2 == b ||
        (match smartFirst r b2 with
         | none => true
         | some q => decide (p < q)))) : Nat) : ℚ) /
    ((responses.length : Nat) : ℚ)

/-- A batch whose single successful response mentions "C++" (no word
character at its end) before "Acme". -/
def cppBatch : BatchResult :=
  { batch_id := "b2", provider := .openai, model := "m", prompt := "p",
    system_prompt := none, config := {},
    iterations := [⟨0, .success, some ⟨"C++ then Acme", none⟩, none⟩] }

/-! ## Helper lemmas: the retry layers -/

theorem retryCall_oracle_spec (p : PErr → Bool) (mk : Nat → Except PErr α) :
    ∀ n i r m, retryCall p (fun j => (mk j, j + 1)) n i = (r, m) →
      (i < m ∧ m ≤ i + n + 1) ∧
      r = mk (m - 1) ∧
      (∀ j, i ≤ j → j + 1 < m → ∃ e, mk j = .error e ∧ p e = true) ∧
      (∀ e, r = .error e → p e = false ∨ m = i + n + 1) := by
  intro n
  induction n with
  | zero =>
    intro i r m h
    simp only [retryCall] at h
    rw [Prod.mk.injEq] at h
    obtain ⟨rfl, rfl⟩ := h
    refine ⟨⟨by omega, by omega⟩, by simp, ?_, ?_⟩
    · intro j h1 h2; omega
    · intro e _; right; omega
  | succ n ih =>
    intro i r m h
    simp only [retryCall] at h
    split at h
    case h_1 e i' heq =>
      rw [Prod.mk.injEq] at heq
      obtain ⟨hmk, hi'⟩ := heq
      subst hi'
      by_cases hp : p e = true
      · rw [if_pos hp] at h
        obtain ⟨⟨h1, h2⟩, h3, h4, h5⟩ := ih (i + 1) r m h
        refine ⟨⟨by omega, by omega⟩, h3, ?_, ?_⟩
        · intro j hj1 hj2
          rcases Nat.lt_or_ge j (i + 1) with hj | hj
          · have hji : j = i := by omega
            subst hji
            exact ⟨e, hmk, hp⟩
          · exact h4 j hj hj2
        · intro e' he'
          rcases h5 e' he' with hcase | hcase
          · exact Or.inl hcase
          · right; omega
      · rw [if_neg hp] at h
        rw [Prod.mk.injEq] at h
        obtain ⟨rfl, rfl⟩ := h
        refine ⟨⟨by omega, by omega⟩, by simp [hmk], ?_, ?_⟩
        · intro j h1 h2; omega
        · intro e' he'
          cases he'
          exact Or.inl (by simpa using hp)
    case h_2 a i' heq =>
      rw [Prod.mk.injEq] at heq
      obtain ⟨hmk, hi'⟩ := heq
      subst hi'
      rw [Prod.mk.injEq] at h
      obtain ⟨rfl, rfl⟩ := h
      refine ⟨⟨by omega, by omega⟩, by simp [hmk], ?_, ?_⟩
      · intro j h1 h2; omega
      · intro e he; cases he

theorem generate_spec (mk : Nat → Except PErr Resp) (r : Except PErr Resp) (n : Nat)
    (h : generate mk 0 = (r, n)) :
    (1 ≤ n ∧ n ≤ 5) ∧
    r = mk (n - 1) ∧
    (∀ j, j + 1 < n → ∃ e, mk j = .error e ∧ retryableByProvider e = true) ∧
    (∀ e, r = .error e → retryableByProvider e = false ∨ n = 5) := by
  obtain ⟨⟨h1, h2⟩, h3, h4, h5⟩ := retryCall_oracle_spec retryableByProvider mk 4 0 r n h
  exact ⟨⟨h1, by omega⟩, h3, fun j hj => h4 j (Nat.zero_le j) hj, h5⟩

theorem retryCall_call_stops (p : PErr → Bool) (call : Nat → Except PErr α × Nat) (i : Nat)
    (e : PErr) (i' : Nat) (hc : call i = (.error e, i')) (hp : p e = false) :
    ∀ n, retryCall p call n i = (.error e, i') := by
  intro n
  cases n with
  | zero => simp only [retryCall, hc]
  | succ n => simp only [retryCall, hc, hp, Bool.false_eq_true, if_false]

theorem executeWithRetry_nonretryable (mk : Nat → Except PErr Resp) (e : PErr)
    (h : mk 0 = .error e) (hp : retryableByProvider e = false)
    (hr : retryableByRunner e = false) :
    executeWithRetry mk 0 = (.error e, 1) := by
  have hg : generate mk 0 = (.error e, 1) :=
    retryCall_call_stops retryableByProvider _ 0 e 1 (by simp [h]) hp 4
  exact retryCall_call_stops retryableByRunner _ 0 e 1 hg hr 4

theorem runSingleIteration_index (mk : Nat → Except PErr Resp) (idx : Nat) :
    (runSingleIteration mk idx).iteration_index = idx := by
  unfold runSingleIteration
  cases he : (executeWithRetry mk 0).1 with
  | ok a => rfl
  | error e => cases e <;> rfl

theorem runSingleIteration_error_message (mk : Nat → Except PErr Resp) (idx : Nat)
    (h : (runSingleIteration mk idx).status ≠ .success) :
    (runSingleIteration mk idx).error_message.isSome = true := by
  unfold runSingleIteration at h ⊢
  cases he : (executeWithRetry mk 0).1 with
  | ok a => rw [he] at h; simp at h
  | error e => cases e <;> rfl

theorem runSingleIteration_auth (mk : Nat → Except PErr Resp) (idx : Nat) (m : String)
    (h : mk 0 = .error (.auth m)) :
    runSingleIteration mk idx =
      { iteration_index := idx, status := .authError, response := none,
        error_message := some m } := by
  unfold runSingleIteration
  rw [executeWithRetry_nonretryable mk (.auth m) h rfl rfl]

theorem processResults_map_res (l : List IterationResult) :
    processResults (l.map GatherItem.res) = l := by
  unfold processResults
  rw [← List.map_enum, List.map_map]
  have hcomp : ((fun p : Nat × GatherItem =>
      match p.2 with
      | .res r => r
      | .exn m =>
        { iteration_index := p.1, status := .failed, response := none,
          error_message := some m : IterationResult }) ∘ Prod.map id GatherItem.res) =
      Prod.snd := by
    funext p; rfl
  rw [hcomp, List.enum_map_snd]

theorem run_batch_ok (settings : Settings) (mk : Nat → Nat → Except PErr Resp)
    (prompt : String) (provider : Provider)
    (iterationsArg : Option Nat) (config : Option BatchConfig)
    (hmax : (resolveConfig iterationsArg config).iterations ≤ settings.max_iterations) :
    ∃ b : BatchResult,
      run_batch settings mk prompt provider iterationsArg config = .ok b ∧
      b.iterations = (List.range (resolveConfig iterationsArg config).iterations).map
        (fun i => runSingleIteration (mk i) i) := by
  unfold run_batch
  rw [if_neg (Nat.not_lt.mpr hmax)]
  exact ⟨_, rfl, by rw [processResults_map_res]⟩

theorem getD_map_range (f : Nat → α) (n i : Nat) (d : α) (h : i < n) :
    (((List.range n).map f).getD i d) = f i := by
  rw [List.getD_eq_getElem?_getD, List.getElem?_map, List.getElem?_range h]
  rfl

theorem waitExponential_doubling :
    waitExponential 1 1 60 1 = 1 ∧
    ∀ a, 1 ≤ a → waitExponential 1 1 60 (a + 1) = min (2 * waitExponential 1 1 60 a) 60 := by
  constructor
  · unfold waitExponential; norm_num
  · intro a ha
    unfold waitExponential
    have h2 : (1 : ℚ) ≤ 2 ^ (a - 1) := one_le_pow₀ (by norm_num)
    have h3 : (1 : ℚ) ≤ 2 ^ a := one_le_pow₀ (by norm_num)
    have hae : a - 1 + 1 = a := Nat.succ_pred_eq_of_pos ha
    have hsub : a + 1 - 1 = a := rfl
    rw [hsub, one_mul, one_mul]
    have e1 : max (0 : ℚ) 1 = 1 := by norm_num
    rw [e1]
    have e2 : max 1 (min ((2 : ℚ) ^ (a - 1)) 60) = min ((2 : ℚ) ^ (a - 1)) 60 :=
      max_eq_right (le_min h2 (by norm_num))
    have e3 : max 1 (min ((2 : ℚ) ^ a) 60) = min ((2 : ℚ) ^ a) 60 :=
      max_eq_right (le_min h3 (by norm_num))
    rw [e2, e3]
    have e4 : (2 : ℚ) * min ((2 : ℚ) ^ (a - 1)) 60 = min ((2 : ℚ) ^ a) 120 := by
      rw [mul_min_of_nonneg _ _ (by norm_num : (0 : ℚ) ≤ 2)]
      congr 1
      · rw [← pow_succ', hae]
      · norm_num
    rw [e4, min_assoc]
    norm_num

/-! ## Claim theorems: execution engine -/

/-- C1: for every prompt, provider, oracle, iteration count and concurrency
limit (the count within the configured ceiling), `run_batch` returns a
`BatchResult` whose iterations collection has exactly N entries, and the entry
at list position `i` carries `iteration_index = i` for every `i < N` — no
gaps, no duplicates, ordered by ordinal index. -/
theorem C1_run_batch_indexing
    (settings : Settings) (mk : Nat → Nat → Except PErr Resp) (prompt : String)
    (provider : Provider) (iterationsArg : Option Nat) (config : Option BatchConfig)
    (hN : 1 ≤ (resolveConfig iterationsArg config).iterations)
    (hC : 1 ≤ (resolveConfig iterationsArg config).max_concurrency)
    (hmax : (resolveConfig iterationsArg config).iterations ≤ settings.max_iterations) :
    ∃ b : BatchResult,
      run_batch settings mk prompt provider iterationsArg config = .ok b ∧
      b.iterations.length = (resolveConfig iterationsArg config).iterations ∧
      ∀ i, i < (resolveConfig iterationsArg config).iterations →
        (b.iterations.getD i dummyIteration).iteration_index = i := by
  obtain ⟨b, hb, hit⟩ := run_batch_ok settings mk prompt provider iterationsArg config hmax
  refine ⟨b, hb, ?_, ?_⟩
  · rw [hit, List.length_map, List.length_range]
  · intro i hi
    rw [hit, getD_map_range _ _ _ _ hi, runSingleIteration_index]

/-- C1 witness: a concrete instantiation (default config of 10 iterations,
ceiling 100, an always-succeeding provider). -/
theorem C1_run_batch_indexing_witness :
    ∃ b : BatchResult,
      run_batch ⟨100⟩ (fun _ _ => .ok ⟨"hello", none⟩) "p" .openai none (some {}) = .ok b ∧
      b.iterations.length = (resolveConfig none (some {})).iterations ∧
      ∀ i, i < (resolveConfig none (some {})).iterations →
        (b.iterations.getD i dummyIteration).iteration_index = i :=
  C1_run_batch_indexing ⟨100⟩ (fun _ _ => .ok ⟨"hello", none⟩) "p" .openai none (some {})
    (by decide) (by decide) (by decide)

/-- C2: for every batch passing iteration-count validation, every error raised
during a single iteration is converted into a failed `IterationResult` with a
status tag and an error message and is never propagated out of `run_batch`
(which returns `.ok` for every oracle); in particular an authentication error
on every iteration yields a `BatchResult` with zero successful iterations
rather than an exception. -/
theorem C2_run_batch_error_containment
    (settings : Settings) (mk : Nat → Nat → Except PErr Resp) (prompt : String)
    (provider : Provider) (iterationsArg : Option Nat) (config : Option BatchConfig)
    (hmax : (resolveConfig iterationsArg config).iterations ≤ settings.max_iterations) :
    ∃ b : BatchResult,
      run_batch settings mk prompt provider iterationsArg config = .ok b ∧
      (∀ it ∈ b.iterations, it.status ≠ .success → it.error_message.isSome = true) ∧
      (∀ i m, i < (resolveConfig iterationsArg config).iterations →
        mk i 0 = .error (.auth m) →
        (b.iterations.getD i dummyIteration).status = .authError ∧
        (b.iterations.getD i dummyIteration).error_message = some m) ∧
      ((∀ i, ∃ m, mk i 0 = .error (.auth m)) → b.successful_iterations = 0) := by
  obtain ⟨b, hb, hit⟩ := run_batch_ok settings mk prompt provider iterationsArg config hmax
  refine ⟨b, hb, ?_, ?_, ?_⟩
  · intro it hmem hst
    rw [hit] at hmem
    obtain ⟨i, _, rfl⟩ := List.mem_map.mp hmem
    exact runSingleIteration_error_message _ _ hst
  · intro i m hi hauth
    rw [hit, getD_map_range _ _ _ _ hi, runSingleIteration_auth _ _ _ hauth]
    exact ⟨rfl, rfl⟩
  · intro hall
    unfold BatchResult.successful_iterations
    rw [List.countP_eq_zero]
    intro it hmem
    rw [hit] at hmem
    obtain ⟨i, _, rfl⟩ := List.mem_map.mp hmem
    obtain ⟨m, hm⟩ := hall i
    rw [runSingleIteration_auth _ _ _ hm]
    simp

/-- C2 witness: three iterations against a provider whose credentials are
rejected on every call. -/
theorem C2_run_batch_error_containment_witness :
    ∃ b : BatchResult,
      run_batch ⟨100⟩ (fun _ _ => .error (.auth "bad key")) "p" .openai (some 3) none = .ok b ∧
      (∀ it ∈ b.iterations, it.status ≠ .success → it.error_message.isSome = true) ∧
      (∀ i m, i < (resolveConfig (some 3) none).iterations →
        (fun (_ _ : Nat) => (Except.error (PErr.auth "bad key") : Except PErr Resp)) i 0 =
          .error (.auth m) →
        (b.iterations.getD i dummyIteration).status = .authError ∧
        (b.iterations.getD i dummyIteration).error_message = some m) ∧
      ((∀ i, ∃ m, (fun (_ _ : Nat) => (Except.error (PErr.auth "bad key") : Except PErr Resp)) i 0 =
          .error (.auth m)) → b.successful_iterations = 0) :=
  C2_run_batch_error_containment ⟨100⟩ (fun _ _ => .error (.auth "bad key")) "p" .openai
    (some 3) none (by decide)

/-- C9: the provider adapter's `generate` retries only rate-limit and server
errors, within a bound of 5 attempts, before surfacing the failure; the
surfaced outcome is the last attempt's, every earlier attempt failed
retryably, a non-retryable first failure (auth or malformed payload) is
surfaced immediately after exactly one attempt, and the tenacity backoff
schedule doubles from one second up to the 60-second cap. -/
theorem C9_generate_retry_policy (mk : Nat → Except PErr Resp) (r : Except PErr Resp) (n : Nat)
    (h : generate mk 0 = (r, n)) :
    (1 ≤ n ∧ n ≤ 5) ∧
    r = mk (n - 1) ∧
    (∀ j, j + 1 < n → ∃ e, mk j = .error e ∧ retryableByProvider e = true) ∧
    (∀ e, retryableByProvider e = false → mk 0 = .error e → r = .error e ∧ n = 1) ∧
    (∀ e, r = .error e → retryableByProvider e = false ∨ n = 5) ∧
    (waitExponential 1 1 60 1 = 1 ∧
      ∀ a, 1 ≤ a → waitExponential 1 1 60 (a + 1) = min (2 * waitExponential 1 1 60 a) 60) := by
  obtain ⟨hn, hr, hretried, hlast⟩ := generate_spec mk r n h
  refine ⟨hn, hr, hretried, ?_, hlast, waitExponential_doubling⟩
  intro e hp hmk
  have hstop : generate mk 0 = (.error e, 1) :=
    retryCall_call_stops retryableByProvider _ 0 e 1 (by simp [hmk]) hp 4
  rw [h] at hstop
  rw [Prod.mk.injEq] at hstop
  exact ⟨hstop.1, hstop.2⟩

/-- C9 witness: a malformed-payload failure (`ProviderError`) on the first
attempt is surfaced immediately, with one attempt taken. -/
theorem C9_generate_retry_policy_witness :
    generate (fun _ => .error (.generic "No choices in Perplexity response")) 0 =
      (.error (.generic "No choices in Perplexity response"), 1) ∧
    ((Except.error (PErr.generic "No choices in Perplexity response") : Except PErr Resp) =
        .error (.generic "No choices in Perplexity response") ∧ (1 : Nat) = 1) :=
  ⟨rfl,
    (C9_generate_retry_policy (fun _ => .error (.generic "No choices in Perplexity response"))
        (.error (.generic "No choices in Perplexity response")) 1 rfl).2.2.2.1
      (.generic "No choices in Perplexity response") rfl rfl⟩

/-! ## Claim theorems: analysis engine -/


theorem analyzeBatch_of_no_responses (o : AnalysisOracles) (batch : BatchResult)
    (target_brands : List String) (domain_whitelist : Option (List String))
    (h : batch.raw_responses = []) :
    analyzeBatch o batch target_brands domain_whitelist = emptyResult batch := by
  unfold analyzeBatch
  rw [h]
  rfl

/-- C3: brand visibility matching is case-insensitive literal matching with a
word-boundary assertion on a side only when the brand's edge character there
is a word character: "Acme" is counted as mentioned in "I recommend Acme." and
in "ACME is great" but not in "Academic" or "Acmerch", and "Yahoo!" is counted
as mentioned in "Yahoo! is cool.". -/
theorem C3_visibility_matching_examples :
    0 < (computeVisibility ["I recommend Acme."] "Acme").mention_count ∧
    0 < (computeVisibility ["ACME is great"] "Acme").mention_count ∧
    (computeVisibility ["Academic"] "Acme").mention_count = 0 ∧
    (computeVisibility ["Acmerch"] "Acme").mention_count = 0 ∧
    0 < (computeVisibility ["Yahoo! is cool."] "Yahoo!").mention_count := by
  refine ⟨?_, ?_, ?_, ?_, ?_⟩ <;> decide

/-- C5 counterexample: a batch with zero successful responses has fewer than
two successful responses, yet `analyze_batch` reports all-zero consistency
metrics (the empty-result sentinel), not the claimed maximal ones. -/
theorem C5_counterexample :
    failedBatch.raw_responses.length < 2 ∧
    (analyzeBatch oraclesStub failedBatch ["Acme"] none).consistency.consistency_score = 0 ∧
    (analyzeBatch oraclesStub failedBatch ["Acme"] none).consistency.consistency_score ≠ 1 ∧
    (analyzeBatch oraclesStub failedBatch ["Acme"] none).consistency.avg_similarity = 0 := by
  have he : analyzeBatch oraclesStub failedBatch ["Acme"] none = emptyResult failedBatch :=
    analyzeBatch_of_no_responses _ _ _ _ (by decide)
  refine ⟨by decide, ?_, ?_, ?_⟩ <;> rw [he] <;> norm_num [emptyResult]

/-- C5 as amended: whenever a batch has exactly one successful response (at
least one, fewer than two), the consistency metrics in the `AnalysisResult`
are maximal: all similarity statistics equal 100, the standard deviation 0,
and the consistency score 1. -/
theorem C5_single_response_consistency_maximal (o : AnalysisOracles) (batch : BatchResult)
    (target_brands : List String) (domain_whitelist : Option (List String))
    (h : batch.raw_responses.length = 1) :
    (analyzeBatch o batch target_brands domain_whitelist).consistency =
      { avg_similarity := 100, min_similarity := 100, max_similarity := 100,
        std_deviation := 0, consistency_score := 1 } := by
  simp [analyzeBatch, computeConsistency, h]

/-- C5 witness: the amendment at a concrete one-success batch. -/
theorem C5_single_response_consistency_maximal_witness :
    (analyzeBatch oraclesStub oneSuccessBatch ["Acme"] none).consistency =
      { avg_similarity := 100, min_similarity := 100, max_similarity := 100,
        std_deviation := 0, consistency_score := 1 } :=
  C5_single_response_consistency_maximal oraclesStub oneSuccessBatch ["Acme"] none (by decide)

/-- C6: for every batch with zero successful responses, `analyze_batch`
returns (rather than raises) the sentinel result: zero analyzed responses, no
target visibility, empty competitor-visibility and share-of-voice lists,
all-zero consistency metrics, and an explanatory no-data marker in the raw
metrics map. -/
theorem C6_empty_sentinel (o : AnalysisOracles) (batch : BatchResult)
    (target_brands : List String) (domain_whitelist : Option (List String))
    (h : batch.raw_responses = []) :
    (analyzeBatch o batch target_brands domain_whitelist).total_responses = 0 ∧
    (analyzeBatch o batch target_brands domain_whitelist).target_visibility = none ∧
    (analyzeBatch o batch target_brands domain_whitelist).competitor_visibility = [] ∧
    (analyzeBatch o batch target_brands domain_whitelist).share_of_voice = [] ∧
    (analyzeBatch o batch target_brands domain_whitelist).consistency =
      { avg_similarity := 0, min_similarity := 0, max_similarity := 0,
        std_deviation := 0, consistency_score := 0 } ∧
    ("error", RawVal.str "No successful responses") ∈
      (analyzeBatch o batch target_brands domain_whitelist).raw_metrics := by
  rw [analyzeBatch_of_no_responses o batch target_brands domain_whitelist h]
  refine ⟨rfl, rfl, rfl, rfl, rfl, ?_⟩
  simp [emptyResult]

/-- C6 witness: the sentinel at a concrete all-failed batch. -/
theorem C6_empty_sentinel_witness :
    (analyzeBatch oraclesStub failedBatch ["Acme"] (some ["example.com"])).total_responses = 0 ∧
    (analyzeBatch oraclesStub failedBatch ["Acme"] (some ["example.com"])).target_visibility = none ∧
    (analyzeBatch oraclesStub failedBatch ["Acme"] (some ["example.com"])).competitor_visibility = [] ∧
    (analyzeBatch oraclesStub failedBatch ["Acme"] (some ["example.com"])).share_of_voice = [] ∧
    (analyzeBatch oraclesStub failedBatch ["Acme"] (some ["example.com"])).consistency =
      { avg_similarity := 0, min_similarity := 0, max_similarity := 0,
        std_deviation := 0, consistency_score := 0 } ∧
    ("error", RawVal.str "No successful responses") ∈
      (analyzeBatch oraclesStub failedBatch ["Acme"] (some ["example.com"])).raw_metrics :=
  C6_empty_sentinel oraclesStub failedBatch ["Acme"] (some ["example.com"]) (by decide)


theorem hallucinationOfUrls_fields (wl urls : List String) :
    (hallucinationOfUrls wl urls).invalid_citations =
      (hallucinationOfUrls wl urls).total_citations -
        (hallucinationOfUrls wl urls).valid_citations ∧
    (hallucinationOfUrls wl urls).valid_citations ≤
      (hallucinationOfUrls wl urls).total_citations ∧
    ((hallucinationOfUrls wl urls).total_citations = 0 →
      (hallucinationOfUrls wl urls).hallucination_rate = 0) ∧
    (0 < (hallucinationOfUrls wl urls).total_citations →
      (hallucinationOfUrls wl urls).hallucination_rate =
        ((hallucinationOfUrls wl urls).invalid_citations : ℚ) /
          (hallucinationOfUrls wl urls).total_citations) := by
  unfold hallucinationOfUrls
  refine ⟨rfl, ?_, ?_, ?_⟩
  · exact List.countP_le_length _
  · intro h
    simp only at h ⊢
    rw [if_neg (by omega)]
  · intro h
    simp only at h ⊢
    rw [if_pos h]

/-- C8: a citation URL counts as valid exactly when its host (the lowercased
URL with scheme and path stripped) equals, or is a strict subdomain of, some
whitelisted domain compared case-insensitively; the hallucination rate is
invalid citations over total citations, 0 with no citations; and with hosts
a.example.com and b.com against whitelist [example.com], a.example.com is
valid, b.com is invalid, and the rate is 1/2. -/
theorem C8_hallucination_validation (iterations : List IterationResult)
    (domain_whitelist : List String) :
    (∀ url, isValidCitation (domain_whitelist.map normalizeDomain) url = true ↔
      ∃ d ∈ domain_whitelist,
        (extractDomain url).toList = (normalizeDomain d).toList ∨
        endsWithL (extractDomain url).toList ('.' :: (normalizeDomain d).toList) = true) ∧
    ((computeHallucination iterations domain_whitelist).total_citations = 0 →
      (computeHallucination iterations domain_whitelist).hallucination_rate = 0) ∧
    (0 < (computeHallucination iterations domain_whitelist).total_citations →
      (computeHallucination iterations domain_whitelist).hallucination_rate =
        ((computeHallucination iterations domain_whitelist).invalid_citations : ℚ) /
          (computeHallucination iterations domain_whitelist).total_citations) ∧
    (computeHallucination iterations domain_whitelist).invalid_citations =
      (computeHallucination iterations domain_whitelist).total_citations -
        (computeHallucination iterations domain_whitelist).valid_citations ∧
    isValidCitation ["example.com"] "https://a.example.com/page" = true ∧
    isValidCitation ["example.com"] "https://b.com" = false ∧
    (computeHallucination [perplexityIter] ["example.com"]).total_citations = 2 ∧
    (computeHallucination [perplexityIter] ["example.com"]).valid_citations = 1 ∧
    (computeHallucination [perplexityIter] ["example.com"]).hallucination_rate = 1 / 2 ∧
    (computeHallucination [perplexityIter] ["example.com"]).flagged_urls = ["https://b.com"] := by
  obtain ⟨hinv, hle, hzero, hpos⟩ :=
    hallucinationOfUrls_fields (domain_whitelist.map normalizeDomain)
      (((iterations.filter (fun it => it.status == IterationStatus.success)).flatMap
        citationUrls).filter (fun u => u ≠ ""))
  refine ⟨?_, hzero, hpos, hinv, by decide, by decide, by decide, by decide, ?_, by decide⟩
  · intro url
    unfold isValidCitation
    simp only [List.any_map, List.any_eq_true, Function.comp]
    constructor
    · rintro ⟨d, hd, hor⟩
      rcases Bool.or_eq_true_iff.mp hor with hh | hh
      · exact ⟨d, hd, Or.inl (by simpa using hh)⟩
      · exact ⟨d, hd, Or.inr hh⟩
    · rintro ⟨d, hd, hor⟩
      refine ⟨d, hd, Bool.or_eq_true_iff.mpr ?_⟩
      rcases hor with hh | hh
      · exact Or.inl (by simpa using hh)
      · exact Or.inr hh
  · have h2 :
        (computeHallucination [perplexityIter] ["example.com"]).hallucination_rate =
          ((computeHallucination [perplexityIter] ["example.com"]).invalid_citations : ℚ) /
            (computeHallucination [perplexityIter] ["example.com"]).total_citations :=
      ((hallucinationOfUrls_fields (["example.com"].map normalizeDomain) _).2.2.2) (by decide)
    rw [h2]
    have e1 : (computeHallucination [perplexityIter] ["example.com"]).invalid_citations = 1 := by
      decide
    have e2 : (computeHallucination [perplexityIter] ["example.com"]).total_citations = 2 := by
      decide
    rw [e1, e2]
    norm_num

/-- C8 witness: the rate formula applied at the concrete two-citation batch. -/
theorem C8_hallucination_validation_witness :
    0 < (computeHallucination [perplexityIter] ["example.com"]).total_citations ∧
    (computeHallucination [perplexityIter] ["example.com"]).hallucination_rate =
      ((computeHallucination [perplexityIter] ["example.com"]).invalid_citations : ℚ) /
        (computeHallucination [perplexityIter] ["example.com"]).total_citations :=
  ⟨by decide,
    (C8_hallucination_validation [perplexityIter] ["example.com"]).2.2.1 (by decide)⟩

/-! ## Helper lemmas: the stable descending sort of share-of-voice -/

theorem orderedInsert_congr (r s : α → α → Prop) [DecidableRel r] [DecidableRel s]
    (x : α) (l : List α) (h : ∀ y ∈ l, r x y ↔ s x y) :
    List.orderedInsert r x l = List.orderedInsert s x l := by
  induction l with
  | nil => rfl
  | cons y ys ih =>
    simp only [List.orderedInsert]
    by_cases hr : r x y
    · rw [if_pos hr, if_pos ((h y (List.mem_cons_self y ys)).mp hr)]
    · rw [if_neg hr, if_neg (fun hs => hr ((h y (List.mem_cons_self y ys)).mpr hs)),
        ih (fun z hz => h z (List.mem_cons_of_mem y hz))]


theorem pairwise_fst_lt_enumFrom (l : List α) :
    ∀ n, List.Pairwise (fun p q : Nat × α => p.1 < q.1) (l.enumFrom n) := by
  induction l with
  | nil => intro n; simp
  | cons x xs ih =>
    intro n
    refine List.Pairwise.cons ?_ (ih (n + 1))
    intro q hq
    have hle := List.le_fst_of_mem_enumFrom hq
    show n < q.1
    omega

theorem pairwise_fst_lt_enum (l : List α) :
    List.Pairwise (fun p q : Nat × α => p.1 < q.1) l.enum :=
  pairwise_fst_lt_enumFrom l 0

/-- Stability of the code's sort: on an index-decorated list with strictly
increasing indices, sorting by descending count alone coincides with sorting
by the lexicographic order (count descending, index ascending). -/
theorem insertionSort_pairLex_eq :
    ∀ l : List (Nat × VisibilityMetrics),
      List.Pairwise (fun p q : Nat × VisibilityMetrics => p.1 < q.1) l →
      List.insertionSort pairCountGE l = List.insertionSort pairLex l := by
  intro l
  induction l with
  | nil => intro _; rfl
  | cons x xs ih =>
    intro hp
    rw [List.insertionSort, List.insertionSort, ih (List.Pairwise.of_cons hp)]
    apply orderedInsert_congr
    intro y hy
    have hy' : y ∈ xs := (List.mem_insertionSort pairLex).mp hy
    have hidx : x.1 < y.1 := (List.pairwise_cons.mp hp).1 y hy'
    unfold pairCountGE pairLex
    constructor
    · intro hle
      rcases Nat.eq_or_lt_of_le hle with heq | hlt
      · exact Or.inr ⟨heq.symm, Nat.le_of_lt hidx⟩
      · exact Or.inl hlt
    · intro hs
      rcases hs with hlt | ⟨heq, _⟩
      · exact Nat.le_of_lt hlt
      · exact Nat.le_of_eq heq.symm


theorem sum_map_div (l : List α) (f : α → ℚ) (c : ℚ) :
    (l.map (fun a => f a / c)).sum = (l.map f).sum / c := by
  induction l with
  | nil => simp
  | cons x xs ih => simp [ih, add_div]

theorem head?_toList_append_tail (l : List α) : l.head?.toList ++ l.tail = l := by
  cases l <;> rfl

theorem computeShareOfVoice_zero (vms : List VisibilityMetrics)
    (h : (vms.map (fun v => v.mention_count)).sum = 0) :
    computeShareOfVoice vms =
      vms.enum.map (fun p => { brand := p.2.brand, share := 0, rank := p.1 + 1 }) := by
  unfold computeShareOfVoice
  rw [if_pos h]

theorem computeShareOfVoice_pos (vms : List VisibilityMetrics)
    (h : ¬((vms.map (fun v => v.mention_count)).sum = 0)) :
    computeShareOfVoice vms =
      (List.insertionSort shareSortRel (vms.map (fun v =>
        (v.brand, (v.mention_count : ℚ) / (((vms.map (fun v => v.mention_count)).sum : Nat) : ℚ),
          v.mention_count)))).enum.map
        (fun p => { brand := p.2.1, share := p.2.2.1, rank := p.1 + 1 }) := by
  unfold computeShareOfVoice
  rw [if_neg h]

theorem rank_of_enum_map (l : List β) (f : Nat × β → ShareOfVoice)
    (hf : ∀ p, (f p).rank = p.1 + 1) :
    (l.enum.map f).map (fun s => s.rank) = (List.range l.length).map (fun i => i + 1) := by
  rw [List.map_map]
  have h1 : ((fun s => s.rank) ∘ f) = (fun p : Nat × β => p.1 + 1) := funext fun p => hf p
  have h2 : (fun p : Nat × β => p.1 + 1) = ((fun i => i + 1) ∘ Prod.fst) := rfl
  rw [h1, h2, ← List.map_map, List.enum_map_fst]

theorem computeShareOfVoice_ranks (vms : List VisibilityMetrics) :
    (computeShareOfVoice vms).map (fun s => s.rank) =
      (List.range vms.length).map (fun i => i + 1) := by
  by_cases h : (vms.map (fun v => v.mention_count)).sum = 0
  · rw [computeShareOfVoice_zero vms h, rank_of_enum_map _ _ (fun p => rfl)]
  · rw [computeShareOfVoice_pos vms h, rank_of_enum_map _ _ (fun p => rfl),
      List.length_insertionSort, List.length_map]

theorem computeShareOfVoice_zero_shares (vms : List VisibilityMetrics)
    (h : (vms.map (fun v => v.mention_count)).sum = 0) :
    ∀ s ∈ computeShareOfVoice vms, s.share = 0 := by
  rw [computeShareOfVoice_zero vms h]
  intro s hs
  obtain ⟨p, _, rfl⟩ := List.mem_map.mp hs
  rfl

theorem computeShareOfVoice_sum (vms : List VisibilityMetrics)
    (h : ¬((vms.map (fun v => v.mention_count)).sum = 0)) :
    ((computeShareOfVoice vms).map (fun s => s.share)).sum = 1 := by
  rw [computeShareOfVoice_pos vms h, List.map_map]
  have hsnd : ((fun s : ShareOfVoice => s.share) ∘ (fun p : Nat × (String × ℚ × Nat) =>
      ({ brand := p.2.1, share := p.2.2.1, rank := p.1 + 1 } : ShareOfVoice))) =
      ((fun t : String × ℚ × Nat => t.2.1) ∘ Prod.snd) := rfl
  rw [hsnd, ← List.map_map, List.enum_map_snd]
  have hperm := (List.perm_insertionSort shareSortRel (vms.map (fun v =>
      (v.brand, (v.mention_count : ℚ) / (((vms.map (fun v => v.mention_count)).sum : Nat) : ℚ),
        v.mention_count)))).map (fun t : String × ℚ × Nat => t.2.1)
  rw [hperm.sum_eq, List.map_map]
  show (vms.map (fun v => (v.mention_count : ℚ) /
    (((vms.map (fun v => v.mention_count)).sum : Nat) : ℚ))).sum = 1
  rw [sum_map_div]
  have hcast : (vms.map (fun v => ((v.mention_count : Nat) : ℚ))).sum =
      (((vms.map (fun v => v.mention_count)).sum : Nat) : ℚ) := by
    rw [Nat.cast_list_sum, List.map_map]
    rfl
  rw [hcast]
  exact div_self (Nat.cast_ne_zero.mpr h)

/-- The code's stable descending sort realizes the claimed rank order: the
sorted (brand, share) triples coincide with the specification-side
lexicographic ordering of the (brand, count) pairs. -/
theorem computeShareOfVoice_order (vms : List VisibilityMetrics)
    (h : ¬((vms.map (fun v => v.mention_count)).sum = 0)) :
    (computeShareOfVoice vms).map (fun s => (s.brand, s.share)) =
      (specRankOrder (vms.map (fun v => (v.brand, v.mention_count)))).map
        (fun p => (p.1, (p.2 : ℚ) / (((vms.map (fun v => v.mention_count)).sum : Nat) : ℚ))) := by
  have h1 := (List.map_insertionSort vmCountGE shareSortRel (fun v =>
      (v.brand, (v.mention_count : ℚ) / (((vms.map (fun v => v.mention_count)).sum : Nat) : ℚ),
        v.mention_count)) vms (fun a _ b _ => Iff.rfl)).symm
  have h2 := List.map_insertionSort pairCountGE vmCountGE Prod.snd vms.enum
    (fun a _ b _ => Iff.rfl)
  rw [List.enum_map_snd] at h2
  have h3 : List.insertionSort pairCountGE vms.enum = List.insertionSort pairLex vms.enum :=
    insertionSort_pairLex_eq vms.enum (pairwise_fst_lt_enum vms)
  have h4 := List.map_insertionSort pairLex specRankRel
    (Prod.map id (fun v => (v.brand, v.mention_count))) vms.enum (fun a _ b _ => Iff.rfl)
  rw [List.map_enum] at h4
  rw [computeShareOfVoice_pos vms h, List.map_map]
  have hk : ((fun s : ShareOfVoice => (s.brand, s.share)) ∘
      (fun p : Nat × (String × ℚ × Nat) =>
        ({ brand := p.2.1, share := p.2.2.1, rank := p.1 + 1 } : ShareOfVoice))) =
      ((fun t : String × ℚ × Nat => (t.1, t.2.1)) ∘ Prod.snd) := rfl
  rw [hk, ← List.map_map, List.enum_map_snd, h1, ← h2, h3]
  unfold specRankOrder
  rw [← h4]
  simp only [List.map_map]
  rfl

theorem analyzeBatch_pos_fields (o : AnalysisOracles) (batch : BatchResult)
    (target_brands : List String) (domain_whitelist : Option (List String))
    (h : batch.raw_responses ≠ []) :
    (analyzeBatch o batch target_brands domain_whitelist).target_visibility =
      (allVisibility batch.raw_responses target_brands).head? ∧
    (analyzeBatch o batch target_brands domain_whitelist).competitor_visibility =
      (allVisibility batch.raw_responses target_brands).tail ∧
    (analyzeBatch o batch target_brands domain_whitelist).share_of_voice =
      computeShareOfVoice (allVisibility batch.raw_responses target_brands) ∧
    (analyzeBatch o batch target_brands domain_whitelist).consistency =
      computeConsistency o batch.raw_responses := by
  have hne : ¬(batch.raw_responses.length = 0) := fun hc => h (List.length_eq_zero.mp hc)
  simp only [analyzeBatch]
  rw [if_neg hne]
  exact ⟨rfl, rfl, rfl, rfl⟩

/-- C4: in the `AnalysisResult` of `analyze_batch` over a batch with at least
one successful response, ranks are the contiguous values 1..n in list order;
when the total mention count is zero every share is 0; and when it is
positive the shares sum to 1 and the (brand, share) sequence is exactly the
(brand, count/total) pairs in the claimed order — descending raw mention
count with ties broken by the brands' original list order. -/
theorem C4_share_of_voice (o : AnalysisOracles) (batch : BatchResult)
    (target_brands : List String) (domain_whitelist : Option (List String))
    (h : batch.raw_responses ≠ []) (vms : List VisibilityMetrics)
    (hvms : vms = (analyzeBatch o batch target_brands domain_whitelist).target_visibility.toList ++
      (analyzeBatch o batch target_brands domain_whitelist).competitor_visibility) :
    ((analyzeBatch o batch target_brands domain_whitelist).share_of_voice.map
        (fun s => s.rank) = (List.range vms.length).map (fun i => i + 1)) ∧
    ((vms.map (fun v => v.mention_count)).sum = 0 →
      ∀ s ∈ (analyzeBatch o batch target_brands domain_whitelist).share_of_voice,
        s.share = 0) ∧
    (0 < (vms.map (fun v => v.mention_count)).sum →
      (((analyzeBatch o batch target_brands domain_whitelist).share_of_voice.map
        (fun s => s.share)).sum = 1 ∧
      (analyzeBatch o batch target_brands domain_whitelist).share_of_voice.map
          (fun s => (s.brand, s.share)) =
        (specRankOrder (vms.map (fun v => (v.brand, v.mention_count)))).map
          (fun p => (p.1, (p.2 : ℚ) / (((vms.map (fun v => v.mention_count)).sum : Nat) : ℚ))))) := by
  obtain ⟨ht, hc, hs, _⟩ := analyzeBatch_pos_fields o batch target_brands domain_whitelist h
  have hv : vms = allVisibility batch.raw_responses target_brands := by
    rw [hvms, ht, hc, head?_toList_append_tail]
  subst hv
  rw [hs]
  refine ⟨computeShareOfVoice_ranks _, fun h0 => computeShareOfVoice_zero_shares _ h0,
    fun hpos => ⟨?_, ?_⟩⟩
  · exact computeShareOfVoice_sum _ (by omega)
  · exact computeShareOfVoice_order _ (by omega)

/-- C4 witness: a one-response batch mentioning the first of two brands; the
shares sum to 1 and the ranks are contiguous. -/
theorem C4_share_of_voice_witness :
    (((analyzeBatch oraclesStub oneSuccessBatch ["Acme", "Bex"] none).share_of_voice.map
      (fun s => s.share)).sum = 1) ∧
    ((analyzeBatch oraclesStub oneSuccessBatch ["Acme", "Bex"] none).share_of_voice.map
      (fun s => s.rank) = [1, 2]) := by
  have h := C4_share_of_voice oraclesStub oneSuccessBatch ["Acme", "Bex"] none (by decide)
    ((analyzeBatch oraclesStub oneSuccessBatch ["Acme", "Bex"] none).target_visibility.toList ++
      (analyzeBatch oraclesStub oneSuccessBatch ["Acme", "Bex"] none).competitor_visibility) rfl
  refine ⟨(h.2.2 (by decide)).1, ?_⟩
  rw [h.1]
  decide

/-! ## Helper lemmas: the first-mention scan -/

theorem stepBrand_none (r : String) (b : String) (acc : Option (String × Nat))
    (h : wbFirst r b = none) : stepBrand r acc b = acc := by
  unfold stepBrand
  rw [h]

theorem stepBrand_some_none (r b : String) (p : Nat) (h : wbFirst r b = some p) :
    stepBrand r none b = some (b, p) := by
  unfold stepBrand
  rw [h]

theorem stepBrand_some_some (r b : String) (p : Nat) (b0 : String) (p0 : Nat)
    (h : wbFirst r b = some p) :
    stepBrand r (some (b0, p0)) b = if p < p0 then some (b, p) else some (b0, p0) := by
  unfold stepBrand
  rw [h]

/-- A non-empty accumulator stays non-empty, and its offset never increases. -/
theorem foldl_stepBrand_some (r : String) :
    ∀ (l : List String) (c : String) (pm : Nat),
      ∃ d m, l.foldl (stepBrand r) (some (c, pm)) = some (d, m) ∧ m ≤ pm := by
  intro l
  induction l with
  | nil => intro c pm; exact ⟨c, pm, rfl, Nat.le_refl pm⟩
  | cons b l ih =>
    intro c pm
    simp only [List.foldl_cons]
    cases hwb : wbFirst r b with
    | none =>
      rw [stepBrand_none r b _ hwb]
      exact ih c pm
    | some p =>
      rw [stepBrand_some_some r b p c pm hwb]
      by_cases hlt : p < pm
      · rw [if_pos hlt]
        obtain ⟨d, m, hdm, hm⟩ := ih b p
        exact ⟨d, m, hdm, Nat.le_trans hm (Nat.le_of_lt hlt)⟩
      · rw [if_neg hlt]
        exact ih c pm

/-- Whatever the scan returns is the accumulator or a list element paired
with its own first-match offset. -/
theorem foldl_stepBrand_sound (r : String) :
    ∀ (l : List String) (acc : Option (String × Nat)) (d : String) (m : Nat),
      l.foldl (stepBrand r) acc = some (d, m) →
      acc = some (d, m) ∨ (d ∈ l ∧ wbFirst r d = some m) := by
  intro l
  induction l with
  | nil => intro acc d m h; exact Or.inl h
  | cons b l ih =>
    intro acc d m h
    simp only [List.foldl_cons] at h
    rcases ih (stepBrand r acc b) d m h with hacc | ⟨hd, hw⟩
    · cases hwb : wbFirst r b with
      | none =>
        rw [stepBrand_none r b _ hwb] at hacc
        exact Or.inl hacc
      | some p =>
        cases acc with
        | none =>
          rw [stepBrand_some_none r b p hwb] at hacc
          simp only [Option.some.injEq, Prod.mk.injEq] at hacc
          obtain ⟨rfl, rfl⟩ := hacc
          exact Or.inr ⟨List.mem_cons_self b l, hwb⟩
        | some pair =>
          obtain ⟨b0, p0⟩ := pair
          rw [stepBrand_some_some r b p b0 p0 hwb] at hacc
          by_cases hlt : p < p0
          · rw [if_pos hlt] at hacc
            simp only [Option.some.injEq, Prod.mk.injEq] at hacc
            obtain ⟨rfl, rfl⟩ := hacc
            exact Or.inr ⟨List.mem_cons_self b l, hwb⟩
          · rw [if_neg hlt] at hacc
            exact Or.inl hacc
    · exact Or.inr ⟨List.mem_cons_of_mem b hd, hw⟩

/-- If some list element matches, the scan returns a winner whose offset is
at most that element's. -/
theorem foldl_stepBrand_min (r : String) :
    ∀ (l : List String) (acc : Option (String × Nat)) (b' : String) (q : Nat),
      b' ∈ l → wbFirst r b' = some q →
      ∃ d m, l.foldl (stepBrand r) acc = some (d, m) ∧ m ≤ q := by
  intro l
  induction l with
  | nil => intro acc b' q hb _; cases hb
  | cons b l ih =>
    intro acc b' q hb hq
    simp only [List.foldl_cons]
    rcases List.mem_cons.mp hb with rfl | hb'
    · cases acc with
      | none =>
        rw [stepBrand_some_none r b' q hq]
        exact foldl_stepBrand_some r l b' q
      | some pair =>
        obtain ⟨b0, p0⟩ := pair
        rw [stepBrand_some_some r b' q b0 p0 hq]
        by_cases hlt : q < p0
        · rw [if_pos hlt]
          exact foldl_stepBrand_some r l b' q
        · rw [if_neg hlt]
          obtain ⟨d, m, hdm, hm⟩ := foldl_stepBrand_some r l b0 p0
          exact ⟨d, m, hdm, Nat.le_trans hm (Nat.le_of_not_lt hlt)⟩
    · exact ih (stepBrand r acc b) b' q hb' hq

/-- A held winner survives the rest of the scan when no later brand matches
strictly earlier. -/
theorem foldl_stepBrand_keep (r : String) :
    ∀ (l : List String) (c : String) (pm : Nat),
      (∀ b ∈ l, ∀ q, wbFirst r b = some q → pm ≤ q) →
      l.foldl (stepBrand r) (some (c, pm)) = some (c, pm) := by
  intro l
  induction l with
  | nil => intro c pm _; rfl
  | cons b l ih =>
    intro c pm h
    simp only [List.foldl_cons]
    cases hwb : wbFirst r b with
    | none =>
      rw [stepBrand_none r b _ hwb]
      exact ih c pm (fun b' hb' => h b' (List.mem_cons_of_mem b hb'))
    | some p =>
      rw [stepBrand_some_some r b p c pm hwb,
        if_neg (Nat.not_lt.mpr (h b (List.mem_cons_self b l) p hwb))]
      exact ih c pm (fun b' hb' => h b' (List.mem_cons_of_mem b hb'))

theorem firstWinner_mem (r : String) (brands : List String) (w : String)
    (h : firstWinner r brands = some w) : w ∈ brands := by
  unfold firstWinner at h
  cases hf : brands.foldl (stepBrand r) none with
  | none => rw [hf] at h; cases h
  | some pair =>
    obtain ⟨d, m⟩ := pair
    rw [hf] at h
    simp only [Option.map_some', Option.some.injEq] at h
    subst h
    rcases foldl_stepBrand_sound r brands none d m hf with hacc | ⟨hd, _⟩
    · cases hacc
    · exact hd

/-- The first-mention scan credits brand `b` (at a given list position)
exactly when `b` matches at an offset strictly lower than every
earlier-listed brand's first match and at most every later-listed brand's:
only a strictly lower offset displaces the held winner, so ties go to the
earliest-listed brand. -/
theorem firstWinner_iff (r : String) (pre : List String) (b : String) (post : List String)
    (hnd : (pre ++ b :: post).Nodup) :
    firstWinner r (pre ++ b :: post) = some b ↔
      ∃ p, wbFirst r b = some p ∧
        (∀ b' ∈ pre, ∀ q, wbFirst r b' = some q → p < q) ∧
        (∀ b' ∈ post, ∀ q, wbFirst r b' = some q → p ≤ q) := by
  obtain ⟨hpreN, hconsN, hdisj⟩ := List.nodup_append.mp hnd
  have hbpost : b ∉ post := (List.nodup_cons.mp hconsN).1
  have hbpre : b ∉ pre := fun hb => hdisj hb (List.mem_cons_self b post)
  constructor
  · intro h
    unfold firstWinner at h
    cases hf : (pre ++ b :: post).foldl (stepBrand r) none with
    | none => rw [hf] at h; cases h
    | some pair =>
      obtain ⟨d, m⟩ := pair
      rw [hf] at h
      simp only [Option.map_some', Option.some.injEq] at h
      subst h
      rw [List.foldl_append] at hf
      simp only [List.foldl_cons] at hf
      have hA' : stepBrand r (pre.foldl (stepBrand r) none) d = some (d, m) := by
        rcases foldl_stepBrand_sound r post _ d m hf with hacc | ⟨hmem, _⟩
        · exact hacc
        · exact absurd hmem hbpost
      have hwb : wbFirst r d = some m := by
        cases hwbb : wbFirst r d with
        | none =>
          rw [stepBrand_none r d _ hwbb] at hA'
          rcases foldl_stepBrand_sound r pre none d m hA' with hacc | ⟨hmem, _⟩
          · cases hacc
          · exact absurd hmem hbpre
        | some p =>
          cases hA : pre.foldl (stepBrand r) none with
          | none =>
            rw [hA, stepBrand_some_none r d p hwbb] at hA'
            simp only [Option.some.injEq, Prod.mk.injEq] at hA'
            rw [hA'.2]
          | some pair0 =>
            obtain ⟨b0, p0⟩ := pair0
            rw [hA, stepBrand_some_some r d p b0 p0 hwbb] at hA'
            by_cases hlt : p < p0
            · rw [if_pos hlt] at hA'
              simp only [Option.some.injEq, Prod.mk.injEq] at hA'
              rw [hA'.2]
            · rw [if_neg hlt] at hA'
              simp only [Option.some.injEq, Prod.mk.injEq] at hA'
              obtain ⟨hb0, _⟩ := hA'
              rcases foldl_stepBrand_sound r pre none b0 p0 hA with hacc | ⟨hmem, _⟩
              · cases hacc
              · exact absurd (hb0 ▸ hmem) hbpre
      refine ⟨m, hwb, ?_, ?_⟩
      · intro b' hb' q hq
        obtain ⟨d0, m0, hA, hm0⟩ := foldl_stepBrand_min r pre none b' q hb' hq
        rw [hA, stepBrand_some_some r d m d0 m0 hwb] at hA'
        by_cases hlt : m < m0
        · exact Nat.lt_of_lt_of_le hlt hm0
        · rw [if_neg hlt] at hA'
          simp only [Option.some.injEq, Prod.mk.injEq] at hA'
          obtain ⟨hd0, _⟩ := hA'
          rcases foldl_stepBrand_sound r pre none d0 m0 hA with hacc | ⟨hmem, _⟩
          · cases hacc
          · exact absurd (hd0 ▸ hmem) hbpre
      · intro b' hb' q hq
        obtain ⟨d1, m1, hpost1, hm1⟩ :=
          foldl_stepBrand_min r post (stepBrand r (pre.foldl (stepBrand r) none) d) b' q hb' hq
        rw [hf] at hpost1
        simp only [Option.some.injEq, Prod.mk.injEq] at hpost1
        obtain ⟨_, hm⟩ := hpost1
        omega
  · rintro ⟨p, hp, hpre, hpost⟩
    unfold firstWinner
    rw [List.foldl_append]
    simp only [List.foldl_cons]
    cases hA : pre.foldl (stepBrand r) none with
    | none =>
      rw [stepBrand_some_none r b p hp,
        foldl_stepBrand_keep r post b p (fun b' hb' q hq => hpost b' hb' q hq)]
      rfl
    | some pair0 =>
      obtain ⟨b0, p0⟩ := pair0
      have hb0 : b0 ∈ pre ∧ wbFirst r b0 = some p0 := by
        rcases foldl_stepBrand_sound r pre none b0 p0 hA with hacc | hmem
        · cases hacc
        · exact hmem
      have hlt : p < p0 := hpre b0 hb0.1 p0 hb0.2
      rw [stepBrand_some_some r b p b0 p0 hp, if_pos hlt,
        foldl_stepBrand_keep r post b p (fun b' hb' q hq => hpost b' hb' q hq)]
      rfl

theorem lookupA_map_self (brands : List String) (g : String → α) (b : String)
    (hb : b ∈ brands) :
    lookupA (brands.map (fun x => (x, g x))) b = some (g b) := by
  unfold lookupA
  induction brands with
  | nil => cases hb
  | cons x xs ih =>
    simp only [List.map_cons]
    by_cases hx : (x == b) = true
    · have hxb : x = b := by simpa using hx
      rw [List.find?_cons_of_pos _ (by simpa using hx), hxb]
      rfl
    · rw [List.find?_cons_of_neg _ (by simpa using hx)]
      rcases List.mem_cons.mp hb with rfl | hb'
      · simp at hx
      · exact ih hb'

theorem updateA_map_keys (brands : List String) (g : String → Nat) (w : String) (v : Nat)
    (hw : w ∈ brands) :
    updateA (brands.map (fun b => (b, g b))) w v =
      brands.map (fun b => (b, if b == w then v else g b)) := by
  unfold updateA
  have hany : (brands.map (fun b => (b, g b))).any (fun p => p.1 == w) = true := by
    rw [List.any_eq_true]
    exact ⟨(w, g w), List.mem_map_of_mem _ hw, by simp⟩
  rw [if_pos hany, List.map_map]
  apply List.map_congr_left
  intro b _
  simp only [Function.comp]
  by_cases hbw : (b == w) = true
  · have hb : b = w := by simpa using hbw
    rw [if_pos hbw, if_pos hbw, hb]
  · rw [if_neg (by simpa using hbw), if_neg (by simpa using hbw)]

theorem find?_map_update (l : List (String × α)) (k k' : String) (v : α)
    (h : ¬(k' = k)) :
    List.find? (fun p => p.1 == k') (l.map (fun p => if (p.1 == k) = true then (k, v) else p)) =
      List.find? (fun p => p.1 == k') l := by
  induction l with
  | nil => rfl
  | cons p ps ih =>
    simp only [List.map_cons, List.find?_cons]
    by_cases hp : (p.1 == k) = true
    · have hpk : p.1 = k := by simpa using hp
      have h1 : ((k, v).1 == k') = false := by simp; exact fun he => h he.symm
      have h2 : (p.1 == k') = false := by simp [hpk]; exact fun he => h he.symm
      rw [if_pos hp, h1, h2]
      exact ih
    · rw [if_neg hp]
      by_cases hp' : (p.1 == k') = true
      · rw [hp']
      · have h2 : (p.1 == k') = false := by simpa using hp'
        rw [h2]
        exact ih

theorem find?_append_single_ne (l : List (String × α)) (k k' : String) (v : α)
    (h : ¬(k' = k)) :
    List.find? (fun p => p.1 == k') (l ++ [(k, v)]) = List.find? (fun p => p.1 == k') l := by
  induction l with
  | nil =>
    simp only [List.nil_append, List.find?_cons]
    have h1 : ((k, v).1 == k') = false := by simp; exact fun he => h he.symm
    rw [h1]
  | cons p ps ih =>
    rw [List.cons_append, List.find?_cons, List.find?_cons]
    by_cases hp' : (p.1 == k') = true
    · rw [hp']
    · have h2 : (p.1 == k') = false := by simpa using hp'
      rw [h2]
      exact ih

theorem lookupA_updateA_ne (l : List (String × α)) (k k' : String) (v : α)
    (h : ¬(k' = k)) :
    lookupA (updateA l k v) k' = lookupA l k' := by
  unfold updateA lookupA
  by_cases hany : l.any (fun p => p.1 == k) = true
  · rw [if_pos hany, find?_map_update l k k' v h]
  · rw [if_neg hany, find?_append_single_ne l k k' v h]

theorem firstMentionCounts_fold (brands : List String) :
    ∀ (rs : List String) (g : String → Nat),
      rs.foldl
        (fun counts r =>
          match firstWinner r brands with
          | some b =>
            match lookupA counts b with
            | some c => updateA counts b (c + 1)
            | none => counts
          | none => counts)
        (brands.map (fun b => (b, g b))) =
      brands.map (fun b =>
        (b, g b + rs.countP (fun r => firstWinner r brands == some b))) := by
  intro rs
  induction rs with
  | nil => intro g; simp
  | cons r rs ih =>
    intro g
    simp only [List.foldl_cons]
    cases hw : firstWinner r brands with
    | none =>
      rw [ih g]
      apply List.map_congr_left
      intro b _
      rw [List.countP_cons]
      simp [hw]
    | some w =>
      have hwmem : w ∈ brands := firstWinner_mem r brands w hw
      simp only [lookupA_map_self brands g w hwmem,
        updateA_map_keys brands g w (g w + 1) hwmem]
      rw [ih (fun b => if b == w then g w + 1 else g b)]
      apply List.map_congr_left
      intro b _
      rw [List.countP_cons]
      simp only [hw, Prod.mk.injEq, true_and]
      by_cases hbw : (b == w) = true
      · have hb : b = w := by simpa using hbw
        subst hb
        simp
        omega
      · have hne : ¬(w = b) := fun he => by simp [he] at hbw
        simp [hbw, hne]

theorem firstMentionCounts_eq (rs : List String) (brands : List String) :
    firstMentionCounts rs brands =
      brands.map (fun b => (b, rs.countP (fun r => firstWinner r brands == some b))) := by
  unfold firstMentionCounts
  have h := firstMentionCounts_fold brands rs (fun _ => 0)
  simpa using h

theorem sum_map_add (l : List α) (f g : α → Nat) :
    (l.map (fun a => f a + g a)).sum = (l.map f).sum + (l.map g).sum := by
  induction l with
  | nil => rfl
  | cons x xs ih =>
    simp only [List.map_cons, List.sum_cons, ih]
    omega

theorem sum_ite_winner_le (brands : List String) (hnd : brands.Nodup) (w : String) :
    (brands.map (fun b => if (some w == some b : Bool) = true then 1 else 0)).sum ≤ 1 := by
  induction brands with
  | nil => simp
  | cons b bs ih =>
    rw [List.map_cons, List.sum_cons]
    have hnd' := List.nodup_cons.mp hnd
    by_cases hwb : (some w == some b : Bool) = true
    · have hb : w = b := by simpa using hwb
      subst hb
      rw [if_pos hwb]
      have hzero : (bs.map (fun b => if (some w == some b : Bool) = true then 1 else 0)).sum = 0 := by
        apply List.sum_eq_zero
        intro x hx
        obtain ⟨b', hb', rfl⟩ := List.mem_map.mp hx
        rw [if_neg]
        intro he
        have : w = b' := by simpa using he
        exact hnd'.1 (this ▸ hb')
      omega
    · rw [if_neg hwb]
      simpa using ih hnd'.2

theorem sum_firstMentionCounts_le (rs : List String) (brands : List String)
    (hnd : brands.Nodup) :
    ((firstMentionCounts rs brands).map Prod.snd).sum ≤ rs.length := by
  rw [firstMentionCounts_eq, List.map_map]
  have hshape : (Prod.snd ∘ fun b =>
      (b, rs.countP (fun r => firstWinner r brands == some b))) =
      (fun b => rs.countP (fun r => firstWinner r brands == some b)) := rfl
  rw [hshape]
  clear hshape
  induction rs with
  | nil => simp
  | cons r rs ih =>
    have hsplit : (brands.map (fun b =>
        (r :: rs).countP (fun r' => firstWinner r' brands == some b))).sum =
        (brands.map (fun b => rs.countP (fun r' => firstWinner r' brands == some b))).sum +
          (brands.map (fun b => if (firstWinner r brands == some b : Bool) = true
            then 1 else 0)).sum := by
      rw [← sum_map_add]
      apply congrArg
      apply List.map_congr_left
      intro b _
      rw [List.countP_cons]
    rw [hsplit]
    have hle : (brands.map (fun b => if (firstWinner r brands == some b : Bool) = true
        then 1 else 0)).sum ≤ 1 := by
      cases hw : firstWinner r brands with
      | none => simp
      | some w => exact sum_ite_winner_le brands hnd w
    have hih := ih
    simp only [List.length_cons]
    omega

theorem find?_map_self (brands : List String) (g : String → α) (b : String)
    (hb : b ∈ brands) :
    (brands.map (fun x => (x, g x))).find? (fun p => p.1 == b) = some (b, g b) := by
  induction brands with
  | nil => cases hb
  | cons x xs ih =>
    simp only [List.map_cons, List.find?_cons]
    by_cases hx : (x == b) = true
    · have hxb : x = b := by simpa using hx
      rw [show ((x, g x).1 == b) = true from hx, hxb]
    · rw [show ((x, g x).1 == b) = (x == b) from rfl, show (x == b) = false from by simpa using hx]
      rcases List.mem_cons.mp hb with rfl | hb'
      · simp at hx
      · exact ih hb'

theorem updateA_not_mem (l : List (String × α)) (k : String) (v : α)
    (h : ∀ p ∈ l, ¬(p.1 = k)) : updateA l k v = l ++ [(k, v)] := by
  unfold updateA
  rw [if_neg]
  intro hany
  rw [List.any_eq_true] at hany
  obtain ⟨p, hp, hpk⟩ := hany
  exact h p hp (by simpa using hpk)

theorem foldl_updateA_acc (vms : List VisibilityMetrics) :
    ∀ acc : List (String × VisibilityMetrics),
      (∀ vm ∈ vms, ∀ p ∈ acc, ¬(p.1 = vm.brand)) →
      (vms.map (fun vm => vm.brand)).Nodup →
      vms.foldl (fun m vm => updateA m vm.brand vm) acc =
        acc ++ vms.map (fun vm => (vm.brand, vm)) := by
  induction vms with
  | nil => intro acc _ _; simp
  | cons vm vms ih =>
    intro acc hdisj hnd
    simp only [List.foldl_cons]
    rw [updateA_not_mem acc vm.brand vm
      (fun p hp => hdisj vm (List.mem_cons_self vm vms) p hp)]
    rw [ih (acc ++ [(vm.brand, vm)]) ?hdisj (by simpa using (List.nodup_cons.mp (by simpa using hnd)).2)]
    · simp
    case hdisj =>
      intro vm' hvm' p hp
      rcases List.mem_append.mp hp with hp' | hp'
      · exact hdisj vm' (List.mem_cons_of_mem vm hvm') p hp'
      · simp only [List.mem_singleton] at hp'
        subst hp'
        intro he
        have hmem : vm'.brand ∈ vms.map (fun vm => vm.brand) := List.mem_map_of_mem _ hvm'
        rw [← he] at hmem
        exact (List.nodup_cons.mp (by simpa using hnd)).1 hmem

theorem patch_fold (total : Nat) :
    ∀ (cl : List (String × Nat)) (m : List (String × VisibilityMetrics))
      (lst : List VisibilityMetrics),
      (cl.map Prod.fst).Nodup →
      (∀ bc ∈ cl, ∃ vm0, lookupA m bc.1 = some vm0 ∧ vm0.brand = bc.1 ∧
        ∀ vm' ∈ lst, vm'.brand = bc.1 → vm' = vm0) →
      (cl.foldl (patchStep total) (m, lst)).2 =
        lst.map (fun vm =>
          match cl.find? (fun bc => bc.1 == vm.brand) with
          | some bc => patchVm total bc.2 vm
          | none => vm) := by
  intro cl
  induction cl with
  | nil =>
    intro m lst _ _
    simp only [List.foldl_nil, List.find?_nil]
    exact (List.map_id' lst).symm
  | cons bc cl ih =>
    intro m lst hnd hinv
    obtain ⟨vm0, hlk, hbr, huniq⟩ := hinv bc (List.mem_cons_self bc cl)
    have hstep : patchStep total (m, lst) bc =
        (updateA m bc.1 (patchVm total bc.2 vm0),
         lst.map (fun vm => if vm.brand == bc.1 then patchVm total bc.2 vm0 else vm)) := by
      unfold patchStep
      rw [hlk]
    simp only [List.foldl_cons]
    rw [hstep, ih _ _ (List.nodup_cons.mp hnd).2 ?inv]
    · rw [List.map_map]
      apply List.map_congr_left
      intro vm hvm
      simp only [Function.comp]
      by_cases hvb : (vm.brand == bc.1) = true
      · have heqb : vm.brand = bc.1 := by simpa using hvb
        have hvm0 : vm = vm0 := huniq vm hvm heqb
        rw [if_pos hvb]
        have hfind_cl : cl.find? (fun bc' => bc'.1 == (patchVm total bc.2 vm0).brand) = none := by
          rw [List.find?_eq_none]
          intro x hx
          have hxne : x.1 ≠ bc.1 := by
            intro he
            have hmem : x.1 ∈ cl.map Prod.fst := List.mem_map_of_mem _ hx
            rw [he] at hmem
            exact (List.nodup_cons.mp hnd).1 hmem
          have hbrand : (patchVm total bc.2 vm0).brand = bc.1 := by
            unfold patchVm
            exact hbr
          rw [hbrand]
          simpa using hxne
        rw [hfind_cl]
        have hhead : (bc.1 == vm.brand) = true := by
          rw [heqb]
          simp
        rw [List.find?_cons, hhead, hvm0]
      · rw [if_neg hvb]
        have hhead : (bc.1 == vm.brand) = false := by
          rw [Bool.eq_false_iff]
          intro he
          have h1 : bc.1 = vm.brand := by simpa using he
          rw [h1] at hvb
          simp at hvb
        rw [List.find?_cons, hhead]
    case inv =>
      intro bc' hbc'
      obtain ⟨vm1, hlk1, hbr1, huniq1⟩ := hinv bc' (List.mem_cons_of_mem bc hbc')
      have hne : ¬(bc'.1 = bc.1) := by
        intro he
        have hmem : bc'.1 ∈ cl.map Prod.fst := List.mem_map_of_mem _ hbc'
        rw [he] at hmem
        exact (List.nodup_cons.mp hnd).1 hmem
      refine ⟨vm1, ?_, hbr1, ?_⟩
      · rw [lookupA_updateA_ne m bc.1 bc'.1 (patchVm total bc.2 vm0) hne]
        exact hlk1
      · intro vm' hvm' hbrand'
        obtain ⟨vm'', hvm'', hmap⟩ := List.mem_map.mp hvm'
        by_cases hvb : (vm''.brand == bc.1) = true
        · rw [if_pos hvb] at hmap
          subst hmap
          have : (patchVm total bc.2 vm0).brand = bc.1 := by
            unfold patchVm
            exact hbr
          rw [this] at hbrand'
          exact absurd hbrand'.symm hne
        · rw [if_neg hvb] at hmap
          subst hmap
          exact huniq1 vm'' hvm'' hbrand'


theorem firstMentionWinsB_iff (r : String) (pre : List String) (b : String)
    (post : List String) :
    firstMentionWinsB r pre b post = true ↔
      ∃ p, wbFirst r b = some p ∧
        (∀ b' ∈ pre, ∀ q, wbFirst r b' = some q → p < q) ∧
        (∀ b' ∈ post, ∀ q, wbFirst r b' = some q → p ≤ q) := by
  unfold firstMentionWinsB
  cases hw : wbFirst r b with
  | none => simp
  | some p =>
    simp only [Bool.and_eq_true, List.all_eq_true]
    constructor
    · rintro ⟨h1, h2⟩
      refine ⟨p, rfl, ?_, ?_⟩
      · intro b' hb' q hq
        have hh := h1 b' hb'
        rw [hq] at hh
        simpa using hh
      · intro b' hb' q hq
        have hh := h2 b' hb'
        rw [hq] at hh
        simpa using hh
    · rintro ⟨p', hp', h1, h2⟩
      have hpp : p' = p := by
        rw [Option.some.injEq] at hp'
        exact hp'.symm
      subst hpp
      refine ⟨fun b' hb' => ?_, fun b' hb' => ?_⟩
      · cases hq : wbFirst r b' with
        | none => rfl
        | some q => simpa using h1 b' hb' q hq
      · cases hq : wbFirst r b' with
        | none => rfl
        | some q => simpa using h2 b' hb' q hq

theorem countP_winner_eq_winsB (rs : List String) (pre post : List String) (b : String)
    (hnd : (pre ++ b :: post).Nodup) :
    rs.countP (fun r => firstWinner r (pre ++ b :: post) == some b) =
      rs.countP (fun r => firstMentionWinsB r pre b post) := by
  apply List.countP_congr
  intro r _
  rw [beq_iff_eq, firstMentionWinsB_iff]
  exact firstWinner_iff r pre b post hnd

theorem allVisibility_eq (rs : List String) (brands : List String)
    (hnd : brands.Nodup) :
    allVisibility rs brands =
      brands.map (fun b =>
        patchVm rs.length
          (rs.countP (fun r => firstWinner r brands == some b))
          (computeVisibility rs b)) := by
  unfold allVisibility computeFirstMentionRates
  have hbrands : (brands.map (computeVisibility rs)).map (fun vm => vm.brand) = brands := by
    rw [List.map_map]
    exact List.map_id' brands
  have hb2m : (brands.map (computeVisibility rs)).foldl
      (fun m vm => updateA m vm.brand vm) [] =
      (brands.map (computeVisibility rs)).map (fun vm => (vm.brand, vm)) := by
    rw [foldl_updateA_acc _ [] (fun vm _ p hp => absurd hp (List.not_mem_nil p))
      (by rw [hbrands]; exact hnd)]
    simp
  have hb2m' : (brands.map (computeVisibility rs)).map (fun vm => (vm.brand, vm)) =
      brands.map (fun x => (x, computeVisibility rs x)) := by
    rw [List.map_map]
    exact List.map_congr_left (fun b _ => rfl)
  rw [hb2m, hb2m', firstMentionCounts_eq]
  rw [patch_fold rs.length _ _ _ ?ndkeys ?inv]
  · rw [List.map_map]
    apply List.map_congr_left
    intro b hb
    simp only [Function.comp]
    have hfind : (brands.map (fun x =>
        (x, rs.countP (fun r => firstWinner r brands == some x)))).find?
        (fun bc => bc.1 == (computeVisibility rs b).brand) =
        some (b, rs.countP (fun r => firstWinner r brands == some b)) := by
      have hbb : (computeVisibility rs b).brand = b := rfl
      rw [hbb]
      exact find?_map_self brands _ b hb
    rw [hfind]
  case ndkeys =>
    have : (brands.map (fun b =>
        (b, rs.countP (fun r => firstWinner r brands == some b)))).map Prod.fst = brands := by
      rw [List.map_map]
      exact List.map_id' brands
    rw [this]
    exact hnd
  case inv =>
    intro bc hbc
    obtain ⟨b, hb, rfl⟩ := List.mem_map.mp hbc
    refine ⟨computeVisibility rs b, ?_, rfl, ?_⟩
    · exact lookupA_map_self brands (computeVisibility rs) b hb
    · intro vm' hvm' hbrand'
      obtain ⟨b', hb', rfl⟩ := List.mem_map.mp hvm'
      have : b' = b := hbrand'
      rw [this]

theorem getD_map_append (f : α → β) (pre : List α) (x : α) (post : List α) (d : β) :
    ((pre ++ x :: post).map f).getD pre.length d = f x := by
  rw [List.map_append, List.map_cons,
    List.getD_append_right _ _ _ _ (by rw [List.length_map])]
  simp


/-- C7 counterexample: in the batch whose one response is "C++ then Acme"
with brands ["C++", "Acme"], the claim's rate for "C++" is 1 (its first match
under the visibility algorithm's smart-boundary rules is at offset 0,
strictly before Acme's), but the code computes first_mention_rate 0 for
"C++" — `_compute_first_mention_rates` uses a plain two-sided `\b` pattern
under which "C++" never matches. -/
theorem C7_counterexample :
    claimFirstMentionRate cppBatch.raw_responses ["C++", "Acme"] "C++" = 1 ∧
    (((analyzeBatch oraclesStub cppBatch ["C++", "Acme"] none).target_visibility.toList ++
      (analyzeBatch oraclesStub cppBatch ["C++", "Acme"] none).competitor_visibility).getD 0
        dummyVM).first_mention_rate = 0 ∧
    (0 : ℚ) ≠ 1 := by
  refine ⟨?_, ?_, by norm_num⟩
  · have key : ∀ c n : Nat, c = 1 → n = 1 → ((c : Nat) : ℚ) / ((n : Nat) : ℚ) = 1 := by
      rintro c n rfl rfl
      norm_num
    exact key _ _ (by decide) (by decide)
  · obtain ⟨ht, hc, _, _⟩ :=
      analyzeBatch_pos_fields oraclesStub cppBatch ["C++", "Acme"] none (by decide)
    rw [ht, hc, head?_toList_append_tail]
    have hb : (["C++", "Acme"] : List String) = [] ++ "C++" :: ["Acme"] := rfl
    rw [hb, allVisibility_eq _ _ (by decide), List.nil_append, List.map_cons,
      List.getD_cons_zero]
    have hcnt : cppBatch.raw_responses.countP
        (fun r => firstWinner r ("C++" :: ["Acme"]) == some "C++") = 0 := by decide
    rw [hcnt]
    have hlen : cppBatch.raw_responses.length = 1 := by decide
    unfold patchVm
    rw [hlen]
    norm_num

/-- C7 as amended: for an analyzed brand `b` listed between `pre` and `post`,
the `first_mention_rate` in its `VisibilityMetrics` equals the number of
successful responses in which `b`'s first match under the plain two-sided
word-boundary pattern (not the visibility algorithm's smart boundaries)
exists, is strictly lower than every earlier-listed brand's first match, and
at most every later-listed brand's (ties go to the earlier-listed brand),
divided by the number of successful responses. -/
theorem C7_first_mention_rate (o : AnalysisOracles) (batch : BatchResult)
    (target_brands : List String) (domain_whitelist : Option (List String))
    (h : batch.raw_responses ≠ [])
    (pre post : List String) (b : String)
    (htb : target_brands = pre ++ b :: post) (hnd : target_brands.Nodup) :
    (((analyzeBatch o batch target_brands domain_whitelist).target_visibility.toList ++
      (analyzeBatch o batch target_brands domain_whitelist).competitor_visibility).getD
        pre.length dummyVM).first_mention_rate =
      ((batch.raw_responses.countP (fun r => firstMentionWinsB r pre b post) : Nat) : ℚ) /
        ((batch.raw_responses.length : Nat) : ℚ) := by
  obtain ⟨ht, hc, _, _⟩ := analyzeBatch_pos_fields o batch target_brands domain_whitelist h
  rw [ht, hc, head?_toList_append_tail]
  subst htb
  rw [allVisibility_eq _ _ hnd, getD_map_append,
    countP_winner_eq_winsB batch.raw_responses pre post b hnd]
  unfold patchVm
  have hlen : 0 < batch.raw_responses.length := List.length_pos.mpr h
  simp [if_pos hlen]

/-- C7 witness: the amendment at a concrete batch — "Acme" wins the single
response, so its rate is the counted wins over one response. -/
theorem C7_first_mention_rate_witness :
    (((analyzeBatch oraclesStub oneSuccessBatch ["Acme", "Bex"] none).target_visibility.toList ++
      (analyzeBatch oraclesStub oneSuccessBatch ["Acme", "Bex"] none).competitor_visibility).getD
        0 dummyVM).first_mention_rate =
      ((oneSuccessBatch.raw_responses.countP
        (fun r => firstMentionWinsB r [] "Acme" ["Bex"]) : Nat) : ℚ) /
        ((oneSuccessBatch.raw_responses.length : Nat) : ℚ) :=
  C7_first_mention_rate oraclesStub oneSuccessBatch ["Acme", "Bex"] none (by decide)
    [] ["Bex"] "Acme" rfl (by decide)

/-- C10: with distinct brands, the first-mention counters absorb at most one
credit per response (their sum is at most the response count), and a brand is
credited on a response exactly when its first match under the two-sided
word-boundary pattern is strictly lower than every earlier-listed brand's and
at most every later-listed brand's — only a strictly lower offset displaces
the held winner, so at equal lowest offsets the earliest-listed brand wins. -/
theorem C10_first_mention_single_credit (rs : List String) (brands : List String)
    (hnd : brands.Nodup) :
    ((firstMentionCounts rs brands).map Prod.snd).sum ≤ rs.length ∧
    (∀ r pre b post, brands = pre ++ b :: post →
      (firstWinner r brands = some b ↔
        ∃ p, wbFirst r b = some p ∧
          (∀ b' ∈ pre, ∀ q, wbFirst r b' = some q → p < q) ∧
          (∀ b' ∈ post, ∀ q, wbFirst r b' = some q → p ≤ q))) := by
  refine ⟨sum_firstMentionCounts_le rs brands hnd, ?_⟩
  intro r pre b post hbr
  subst hbr
  exact firstWinner_iff r pre b post hnd

/-- C10 witness: a tie — both "Acme Corp" and "Acme" first match "Acme Corp"
at offset 0; the earlier-listed brand is credited. -/
theorem C10_first_mention_single_credit_witness :
    ((firstMentionCounts ["Acme Corp"] ["Acme Corp", "Acme"]).map Prod.snd).sum ≤ 1 ∧
    firstWinner "Acme Corp" ["Acme Corp", "Acme"] = some "Acme Corp" ∧
    wbFirst "Acme Corp" "Acme Corp" = some 0 ∧
    wbFirst "Acme Corp" "Acme" = some 0 := by
  refine ⟨(C10_first_mention_single_credit ["Acme Corp"] ["Acme Corp", "Acme"]
    (by decide)).1, by decide, by decide, by decide⟩


end EchoAI
